import Mathlib

/-!
Verification development for the branding / color-resolution pipeline of the
docs-to-tutorial repository (mcp-server).  The TypeScript sources embedded here:

* `src/mcp-server/src/utils/branding.ts` — `rgbaToHex`, `hslToHex`, `darkenHex`,
  `detectTheme`, `extractLogoFromCloud`;
* `src/mcp-server/src/tools/extract-url.ts` — the CSS-signal resolution and the
  palette-refinement steps of the branding orchestrator.

JavaScript strings are modelled as `List Char` (wrapped in `String` at the API),
JavaScript numbers as `ℚ`, with `Option ℚ` where `NaN` can arise (`none` = NaN).
Machine 32-bit bitwise steps (`detectTheme`) are modelled with explicit `% 2^32`.
-/

namespace D2T

/-- Hex-digit test, as accepted by the lenient `parseInt(s, 16)` of JavaScript. -/
def isHexDigitChar (c : Char) : Bool :=
  c.isDigit || ('a' ≤ c && c ≤ 'f') || ('A' ≤ c && c ≤ 'F')

/-- Value of a single hex digit. -/
def hexCharVal (c : Char) : Nat :=
  if c.isDigit then c.toNat - 48
  else if 'a' ≤ c && c ≤ 'f' then c.toNat - 87
  else c.toNat - 55

/-- Value of a hex-digit string, most significant digit first. -/
def hexDigitsToNat (ds : List Char) : Nat :=
  ds.foldl (fun a c => a * 16 + hexCharVal c) 0

/-- Value of a decimal-digit string. -/
def digitsToNat (ds : List Char) : Nat :=
  ds.foldl (fun a c => a * 10 + (c.toNat - 48)) 0

/-- Lowercase hex digit for a value below 16, as produced by `toString(16)`. -/
def hexDigitChar (n : Nat) : Char :=
  if n < 10 then Char.ofNat (48 + n) else Char.ofNat (87 + n)

/-- Fuel-driven base-16 digit expansion (structural recursion keeps it
kernel-reducible; the fuel `n + 1` always suffices). -/
def toHexDigitsAux : Nat → Nat → List Char
  | 0, _ => []
  | fuel + 1, n =>
    if n < 16 then [hexDigitChar n]
    else toHexDigitsAux fuel (n / 16) ++ [hexDigitChar (n % 16)]

/-- Digits of `n` in base 16, lowercase, as produced by `Number.toString(16)`
on a nonnegative integer. -/
def toHexDigits (n : Nat) : List Char := toHexDigitsAux (n + 1) n

/-- `toString(16)` of a JavaScript integer (negative values print a minus sign). -/
def intToHexChars (i : Int) : List Char :=
  if i < 0 then '-' :: toHexDigits i.natAbs else toHexDigits i.toNat

/-- `String.prototype.padStart(2, \x27 0 \x27-like)`: left-pad with zeros to length 2. -/
def pad2 (l : List Char) : List Char :=
  if 2 ≤ l.length then l else List.replicate (2 - l.length) '0' ++ l

/-- `Math.round` on a (finite) JavaScript number: round half toward positive
infinity, i.e. the floor of `q + 1/2` (`Rat.floor` keeps this computable in the
kernel). -/
def jsRoundQ (q : ℚ) : Int := Rat.floor (q + 1/2)

/-- Whitespace as trimmed or skipped by JavaScript. -/
def jsWS (c : Char) : Bool := c.isWhitespace

/-- `String.prototype.trim`. -/
def jsTrimWS (cs : List Char) : List Char :=
  ((cs.dropWhile jsWS).reverse.dropWhile jsWS).reverse

/-- The longest hex-digit run at the head of the list; `none` (NaN) when it is
empty. -/
def parseHexDigitsRun (l : List Char) : Option Nat :=
  if l.takeWhile isHexDigitChar = [] then none
  else some (hexDigitsToNat (l.takeWhile isHexDigitChar))

/-- JavaScript `parseInt(s, 16)` digit phase: optional `0x`/`0X`, then the longest
hex-digit run; `none` (NaN) when no digit is found. -/
def parseHexRun (l : List Char) : Option Nat :=
  match l with
  | '0' :: 'x' :: rest => parseHexDigitsRun rest
  | '0' :: 'X' :: rest => parseHexDigitsRun rest
  | _ => parseHexDigitsRun l

/-- JavaScript `parseInt(s, 16)`: skip whitespace, optional sign, then the longest
hex-digit run; `none` models NaN. -/
def parseIntHexL (l : List Char) : Option Int :=
  match l.dropWhile jsWS with
  | '-' :: rest => (parseHexRun rest).map (fun n => -(n : Int))
  | '+' :: rest => (parseHexRun rest).map (fun n => (n : Int))
  | l1 => (parseHexRun l1).map (fun n => (n : Int))

/-- JavaScript `parseFloat` restricted to the `[\d.]+` capture alphabet
(digits and dots, no sign or exponent can occur): longest valid decimal prefix,
`none` models NaN. -/
def parseFloatJs (cs : List Char) : Option ℚ :=
  match cs.takeWhile Char.isDigit, cs.dropWhile Char.isDigit with
  | [], '.' :: rest2 =>
    if (rest2.takeWhile Char.isDigit) = [] then none
    else some ((digitsToNat (rest2.takeWhile Char.isDigit) : ℚ) /
      (10 : ℚ) ^ (rest2.takeWhile Char.isDigit).length)
  | [], _ => none
  | ds, '.' :: rest2 =>
    some ((digitsToNat ds : ℚ) + (digitsToNat (rest2.takeWhile Char.isDigit) : ℚ) /
      (10 : ℚ) ^ (rest2.takeWhile Char.isDigit).length)
  | ds, _ => some (digitsToNat ds : ℚ)

/-! NaN-aware arithmetic on JavaScript numbers (`none` = NaN). -/

/-- Addition with NaN propagation. -/
def nadd : Option ℚ → Option ℚ → Option ℚ
  | some a, some b => some (a + b)
  | _, _ => none

/-- Subtraction with NaN propagation. -/
def nsub : Option ℚ → Option ℚ → Option ℚ
  | some a, some b => some (a - b)
  | _, _ => none

/-- Multiplication with NaN propagation. -/
def nmul : Option ℚ → Option ℚ → Option ℚ
  | some a, some b => some (a * b)
  | _, _ => none

/-- Strict `<` comparison; any comparison against NaN is false. -/
def nlt : Option ℚ → Option ℚ → Bool
  | some a, some b => a < b
  | _, _ => false

/-- `Math.round` with NaN propagation. -/
def nround : Option ℚ → Option Int
  | some q => some (jsRoundQ q)
  | none => none

/-- `toString(16)` of a JavaScript number that is an integer or NaN. -/
def numToHexChars : Option Int → List Char
  | some i => intToHexChars i
  | none => ['N', 'a', 'N']

/-! ### The regex matchers of `rgbaToHex`

`branding.ts` uses `trimmed.match(/rgba?\(\s*(\d+)\s*,\s*(\d+)\s*,\s*(\d+)/)` and
`trimmed.match(/hsla?\(\s*([\d.]+)\s*,\s*([\d.]+)%\s*,\s*([\d.]+)%/)`.  Both
patterns are unanchored (first match anywhere in the string) and deterministic:
every quantified token class is disjoint from the token that follows it, so
greedy matching without backtracking is exact. -/

/-- Literal head `rgba?\(` at the current position. -/
def afterRgbOpen : List Char → Option (List Char)
  | 'r' :: 'g' :: 'b' :: 'a' :: '(' :: rest => some rest
  | 'r' :: 'g' :: 'b' :: '(' :: rest => some rest
  | _ => none

/-- Literal head `hsla?\(` at the current position. -/
def afterHslOpen : List Char → Option (List Char)
  | 'h' :: 's' :: 'l' :: 'a' :: '(' :: rest => some rest
  | 'h' :: 's' :: 'l' :: '(' :: rest => some rest
  | _ => none

/-- `\s*(\d+)`: skip whitespace, then capture one or more decimal digits
(read with `parseInt`). -/
def matchNum (l : List Char) : Option (Nat × List Char) :=
  let l1 := l.dropWhile jsWS
  let ds := l1.takeWhile Char.isDigit
  if ds = [] then none else some (digitsToNat ds, l1.dropWhile Char.isDigit)

/-- `\s*([\d.]+)`: skip whitespace, then capture one or more digits or dots. -/
def matchNumDots (l : List Char) : Option (List Char × List Char) :=
  let l1 := l.dropWhile jsWS
  let ds := l1.takeWhile (fun c => c.isDigit || c = '.')
  if ds = [] then none
  else some (ds, l1.dropWhile (fun c => c.isDigit || c = '.'))

/-- `\s*,`: skip whitespace, then a comma. -/
def matchComma (l : List Char) : Option (List Char) :=
  let l1 := l.dropWhile jsWS
  match l1 with
  | ',' :: rest => some rest
  | _ => none

/-- A literal percent sign. -/
def matchPercent : List Char → Option (List Char)
  | '%' :: rest => some rest
  | _ => none

/-- Try the whole rgb pattern at the current position. -/
def matchRgbAt (l : List Char) : Option (Nat × Nat × Nat) := do
  let rest ← afterRgbOpen l
  let (r, rest) ← matchNum rest
  let rest ← matchComma rest
  let (g, rest) ← matchNum rest
  let rest ← matchComma rest
  let (b, _) ← matchNum rest
  pure (r, g, b)

/-- Try the whole hsl pattern at the current position; captures are returned raw
(they are parsed with `parseFloat` by the caller). -/
def matchHslAt (l : List Char) : Option (List Char × List Char × List Char) := do
  let rest ← afterHslOpen l
  let (c1, rest) ← matchNumDots rest
  let rest ← matchComma rest
  let (c2, rest) ← matchNumDots rest
  let rest ← matchPercent rest
  let rest ← matchComma rest
  let (c3, rest) ← matchNumDots rest
  let _ ← matchPercent rest
  pure (c1, c2, c3)

/-- Unanchored search for the rgb pattern, earliest start position first. -/
def scanRgb : List Char → Option (Nat × Nat × Nat)
  | [] => none
  | c :: rest =>
    match matchRgbAt (c :: rest) with
    | some v => some v
    | none => scanRgb rest

/-- Unanchored search for the hsl pattern, earliest start position first. -/
def scanHsl : List Char → Option (List Char × List Char × List Char)
  | [] => none
  | c :: rest =>
    match matchHslAt (c :: rest) with
    | some v => some v
    | none => scanHsl rest

/-! ### Color Codec (`branding.ts`) -/

/-- The named-CSS-color table of `rgbaToHex`, in source order. -/
def namedColors : List (String × String) :=
  [("white", "#FFFFFF"), ("black", "#000000"), ("red", "#FF0000"), ("green", "#008000"),
   ("blue", "#0000FF"), ("yellow", "#FFFF00"), ("cyan", "#00FFFF"), ("magenta", "#FF00FF"),
   ("orange", "#FFA500"), ("purple", "#800080"), ("pink", "#FFC0CB"), ("gray", "#808080"),
   ("grey", "#808080"), ("navy", "#000080"), ("teal", "#008080"), ("maroon", "#800000"),
   ("lime", "#00FF00"), ("aqua", "#00FFFF"), ("silver", "#C0C0C0"), ("olive", "#808000"),
   ("coral", "#FF7F50"), ("salmon", "#FA8072"), ("tomato", "#FF6347"), ("gold", "#FFD700"),
   ("indigo", "#4B0082"), ("violet", "#EE82EE"), ("rebeccapurple", "#663399"),
   ("crimson", "#DC143C"), ("darkblue", "#00008B"), ("darkgreen", "#006400"),
   ("steelblue", "#4682B4"), ("slategray", "#708090"), ("dodgerblue", "#1E90FF"),
   ("royalblue", "#4169E1"), ("midnightblue", "#191970")]

/-- The own-key hits of `namedColors[trimmed.toLowerCase()]` — exact lookup of
the lowercased input in the 35-entry table.  JavaScript bracket access on the
object literal additionally reaches inherited `Object.prototype` members when
the key is not an own key; that non-string path is modelled by `isProtoLeak`
and `rgbaToHexJs` below. -/
def lookupNamed (t : List Char) : Option String :=
  (namedColors.find? (fun p => p.1.data == t.map Char.toLower)).map (fun p => p.2)

/-- The wrap-around adjustment at the head of `hue2rgb`
(`if (t < 0) t += 1; if (t > 1) t -= 1;` — the source's sequential
reassignments of `t`, inlined), NaN-faithful. -/
def hue2rgbAdjust (t : Option ℚ) : Option ℚ :=
  if nlt (some 1) (if nlt t (some 0) then nadd t (some 1) else t)
  then nsub (if nlt t (some 0) then nadd t (some 1) else t) (some 1)
  else (if nlt t (some 0) then nadd t (some 1) else t)

/-- The branch structure of `hue2rgb` on the adjusted hue offset. -/
def hue2rgbBody (p q t2 : Option ℚ) : Option ℚ :=
  if nlt t2 (some (1/6)) then nadd p (nmul (nmul (nsub q p) (some 6)) t2)
  else if nlt t2 (some (1/2)) then q
  else if nlt t2 (some (2/3)) then
    nadd p (nmul (nmul (nsub q p) (nsub (some (2/3)) t2)) (some 6))
  else p

/-- The `hue2rgb` helper of `hslToHex` (`branding.ts`), NaN-faithful. -/
def hue2rgb (p q t : Option ℚ) : Option ℚ := hue2rgbBody p q (hue2rgbAdjust t)

/-- One output channel of `hslToHex`: `Math.round(c * 255).toString(16).padStart(2, ...)`. -/
def hslByte (c : Option ℚ) : List Char :=
  pad2 (numToHexChars (nround (nmul c (some 255))))

/-- The `q` local of `hslToHex`: `l < 0.5 ? l * (1 + s) : l + s - l * s`. -/
def hslQ (s l : Option ℚ) : Option ℚ :=
  if nlt l (some (1/2)) then nmul l (nadd (some 1) s)
  else nsub (nadd l s) (nmul l s)

/-- The `p` local of `hslToHex`: `2 * l - q`. -/
def hslP (s l : Option ℚ) : Option ℚ := nsub (nmul (some 2) l) (hslQ s l)

/-- `hslToHex(h, s, l)` of `branding.ts` (the `q`, `p`, `r`, `g`, `b` locals
are inlined through `hslQ`/`hslP`). -/
def hslToHexL (h s l : Option ℚ) : List Char :=
  if s = some 0 then
    '#' :: hslByte l ++ hslByte l ++ hslByte l
  else
    '#' :: hslByte (hue2rgb (hslP s l) (hslQ s l) (nadd h (some (1/3))))
      ++ hslByte (hue2rgb (hslP s l) (hslQ s l) h)
      ++ hslByte (hue2rgb (hslP s l) (hslQ s l) (nsub h (some (1/3))))

/-- Output channel of the rgb branch of `rgbaToHex`:
`parseInt(c).toString(16).padStart(2, ...)` on a nonnegative integer. -/
def rgbByte (n : Nat) : List Char := pad2 (toHexDigits n)

/-- Does the list start with a hash character. -/
def startsHash : List Char → Bool
  | c :: _ => c = '#'
  | [] => false

/-- The `#`-branch of `rgbaToHex`: a 4-character string has its three tail
characters duplicated (`#RGB → #RRGGBB`, no validation); anything else is cut to
its first seven characters (`slice(0, 7)`, no validation). -/
def hexBranch (t : List Char) : List Char :=
  match t with
  | [_, r, g, b] => ['#', r, r, g, g, b, b]
  | _ => t.take 7

/-- The hsl branch of `rgbaToHex`: `parseFloat` each capture, scale
(`/360`, `/100`, `/100`), convert. -/
def hslFromCaptures (c1 c2 c3 : List Char) : List Char :=
  hslToHexL ((parseFloatJs c1).map (fun x => x / 360))
    ((parseFloatJs c2).map (fun x => x / 100))
    ((parseFloatJs c3).map (fun x => x / 100))

/-- `rgbaToHex` after the empty guard and `trim`: hex branch, rgb regex, hsl
regex, named-color table, sentinel — in source order. -/
def rgbaToHexTrimmed (t : List Char) : List Char :=
  if startsHash t then hexBranch t
  else
    match scanRgb t with
    | some (r, g, b) => '#' :: rgbByte r ++ rgbByte g ++ rgbByte b
    | none =>
      match scanHsl t with
      | some (c1, c2, c3) => hslFromCaptures c1 c2 c3
      | none =>
        match lookupNamed t with
        | some v => v.data
        | none => "#0066FF".data

/-- `rgbaToHex` of `branding.ts` on the character list of the input string. -/
def rgbaToHexL (cs : List Char) : List Char :=
  if cs = [] then "#0066FF".data
  else rgbaToHexTrimmed (jsTrimWS cs)

/-- `rgbaToHex(color: string)` — the Color Codec `normalize` operation. -/
def rgbaToHex (color : String) : String := ⟨rgbaToHexL color.data⟩

/-- `rgbaToHex` called with `null`/`undefined` (the `typeof color` guard). -/
def rgbaToHexNullable : Option String → String
  | none => "#0066FF"
  | some c => rgbaToHex c

/-- The JavaScript value actually returned by `rgbaToHex`: its declared return
type is `string`, but `namedColors[lower]` on an object literal traverses the
prototype chain, so it can produce an inherited `Object.prototype` member — a
truthy non-string object that the `if (namedColors[lower])` test passes
straight through. -/
inductive JsColorValue where
  | str (s : String)
  | protoObject (name : List Char)
deriving DecidableEq, Repr

/-- Whether the dynamically-typed return value is actually a string. -/
def JsColorValue.isString : JsColorValue → Bool
  | .str _ => true
  | .protoObject _ => false

/-- The keys on which `namedColors[lower]` hits an inherited `Object.prototype`
member: property access is case-sensitive and `lower` is lowercased, so of the
`Object.prototype` own property names only the all-lowercase `constructor` (the
`Object` constructor function) and `__proto__` (an accessor yielding
`Object.prototype`) are reachable; both values are truthy non-strings.  Names
with capitals such as `hasOwnProperty` or `toString` can never equal a
lowercased key. -/
def isProtoLeak (t : List Char) : Bool :=
  t.map Char.toLower == "constructor".data || t.map Char.toLower == "__proto__".data

/-- `rgbaToHex` after the empty guard and `trim`, with the bracket lookup of
the named-color branch modelled faithfully: an own key returns its table value,
a prototype-leak key returns the inherited member (a non-string), and only the
remaining keys fall through to the sentinel. -/
def rgbaToHexTrimmedJs (t : List Char) : JsColorValue :=
  if startsHash t then .str ⟨hexBranch t⟩
  else
    match scanRgb t with
    | some (r, g, b) => .str ⟨'#' :: rgbByte r ++ rgbByte g ++ rgbByte b⟩
    | none =>
      match scanHsl t with
      | some (c1, c2, c3) => .str ⟨hslFromCaptures c1 c2 c3⟩
      | none =>
        match lookupNamed t with
        | some v => .str v
        | none =>
          if isProtoLeak t then .protoObject (t.map Char.toLower)
          else .str "#0066FF"

/-- `rgbaToHex(color: string)` with the dynamically-typed return value made
explicit; it agrees with `rgbaToHex` wherever the result is a string
(`rgbaToHexJs_agree`). -/
def rgbaToHexJs (color : String) : JsColorValue :=
  if color.data = [] then .str "#0066FF"
  else rgbaToHexTrimmedJs (jsTrimWS color.data)

/-- `darkenHex` of `branding.ts` on the character list of the input string.
`hex.replace( hash, empty )` removes the first hash, which the guard has pinned
to position zero, hence `hex.drop 1`. -/
def darkenHexL (hex : List Char) (factor : ℚ) : List Char :=
  if startsHash hex = false ∨ hex.length < 7 then "#003D99".data
  else
    match parseIntHexL ((hex.drop 1).take 2), parseIntHexL (((hex.drop 1).drop 2).take 2),
        parseIntHexL (((hex.drop 1).drop 4).take 2) with
    | some r, some g, some b =>
      '#' :: pad2 (intToHexChars (jsRoundQ ((r : ℚ) * factor)))
        ++ pad2 (intToHexChars (jsRoundQ ((g : ℚ) * factor)))
        ++ pad2 (intToHexChars (jsRoundQ ((b : ℚ) * factor)))
    | _, _, _ => "#003D99".data

/-- `darkenHex(hex, factor)` — the Color Codec `darken` operation. -/
def darkenHex (hex : String) (factor : ℚ) : String := ⟨darkenHexL hex.data factor⟩

/-! ### Data model -/

/-- The `BrandColors` interface of `branding.ts`. -/
structure BrandColors where
  primary : String
  secondary : String
  accent : String
  background : String
deriving DecidableEq, Repr

/-- Theme classification. -/
inductive Theme where
  | light
  | dark
deriving DecidableEq, Repr

/-- Logo quality tiers, totally ordered by desirability high > medium > favicon. -/
inductive LogoQuality where
  | high
  | medium
  | favicon
deriving DecidableEq, Repr

/-- Luminance test of `detectTheme` on the parsed background value.  The
JavaScript bitwise ops `(rgb >> 16) & 0xff` etc. act on ToInt32 of the parsed
value, i.e. on its 32-bit pattern `v % 2 ^ 32`; the source's `u`, `r`, `g`, `b`
locals are inlined. -/
def detectThemeVal (v : Int) : Theme :=
  if (128 : ℚ) < (299 * (((v % 4294967296).toNat / 65536 % 256 : Nat) : ℚ) +
      587 * (((v % 4294967296).toNat / 256 % 256 : Nat) : ℚ) +
      114 * (((v % 4294967296).toNat % 256 : Nat) : ℚ)) / 1000
  then .light else .dark

/-- `detectTheme` of `branding.ts` on the background character list. -/
def detectThemeL (bg : List Char) : Theme :=
  if bg = [] then .light
  else if startsHash bg = false then .light
  else if bg.length < 7 then .light
  else
    match parseIntHexL (bg.drop 1) with
    | none => .light
    | some v => detectThemeVal v

/-- `detectTheme(colors)` — the Theme Classifier. -/
def detectTheme (colors : BrandColors) : Theme := detectThemeL colors.background.data

/-! ### Logo Resolver (`extractLogoFromCloud`, branding.ts)

HTTP probing is an effect; it is embedded as an environment
`probe : String → Option Nat` giving each URL its outcome — `some status` when
`axios.head` resolves (2xx by axios default `validateStatus`), `none` when it
throws (non-2xx, timeout, network error).  The `probed` field is the effect
trace: the URLs probed, in order. -/

/-- Outcome of one logo resolution. -/
structure LogoResolution where
  url : String
  quality : LogoQuality
  warnings : List String
  probed : List String
deriving DecidableEq, Repr

/-- The Clearbit brand-API URL template. -/
def clearbitUrl (domain : String) : String := "https://logo.clearbit.com/" ++ domain

/-- The Google favicon-service URL template. -/
def faviconUrl (domain : String) : String :=
  "https://www.google.com/s2/favicons?domain=" ++ domain ++ "&sz=256"

/-- The six conventional logo paths under the page origin, in declared order. -/
def commonPaths (origin : String) : List String :=
  [origin ++ "/logo.svg", origin ++ "/logo.png",
   origin ++ "/assets/logo.svg", origin ++ "/assets/logo.png",
   origin ++ "/images/logo.svg", origin ++ "/images/logo.png"]

/-- The common-path loop: returns the first probed path whose probe yields
HTTP 200 (later paths unprobed), together with the trace of probed paths. -/
def tryPaths (probe : String → Option Nat) : List String → Option String × List String
  | [] => (none, [])
  | p :: rest =>
    if probe p = some 200 then (some p, [p])
    else
      let (r, tr) := tryPaths probe rest
      (r, p :: tr)

/-- `extractLogoFromCloud(domain, fullUrl, warnings)`.  `origin` stands for
`new URL(fullUrl).origin` (URL parsing is an external collaborator).  A probe
that resolves with a non-200 status falls through exactly like a thrown one. -/
def extractLogoFromCloud (probe : String → Option Nat) (domain origin : String)
    (warnings : List String) : LogoResolution :=
  let cUrl := clearbitUrl domain
  if probe cUrl = some 200 then
    { url := cUrl, quality := .high, warnings := warnings, probed := [cUrl] }
  else
    let (found, trace) := tryPaths probe (commonPaths origin)
    match found with
    | some p =>
      { url := p, quality := .medium, warnings := warnings, probed := cUrl :: trace }
    | none =>
      { url := faviconUrl domain, quality := .favicon,
        warnings := warnings ++
          ["No high-quality logo found for " ++ domain ++ ". Using Google favicon (256px)."],
        probed := cUrl :: trace }

/-! ### Branding Orchestrator refinement (extract-url.ts)

`extractColorsFromScreenshot` (utils/color-extraction.ts) is not among the
sources; per the spec (§4.2 Palette Extractor) it returns a baseline
`BrandColors` computed from screenshot pixels.  It is therefore passed in as the
`screenshotColors` baseline below.  Logo download / staticPath handling is
outside the refinement step and omitted. -/

/-- Logo field of a `BrandingResult`. -/
structure LogoInfo where
  url : String
  quality : LogoQuality
deriving DecidableEq, Repr

/-- The `BrandingResult` interface of `branding.ts` (staticPath omitted — it is
filled in after the orchestrator returns). -/
structure BrandingResult where
  logo : LogoInfo
  colors : BrandColors
  font : String
  theme : Theme
deriving DecidableEq, Repr

/-- Palette refinement of `extractBrandingWithCssColors` (extract-url.ts,
`if (cssColors.primary) { colors.primary = rgbaToHex(...); colors.secondary =
darkenHex(colors.primary, 0.6); } if (cssColors.accent) { colors.accent =
rgbaToHex(...); }`).  The raw CSS strings are normalized here. -/
def refineColorsWithCss (colors : BrandColors) (cssPrimary cssAccent : Option String) :
    BrandColors :=
  let colors1 :=
    match cssPrimary with
    | some p =>
      let prim := rgbaToHex p
      { colors with primary := prim, secondary := darkenHex prim (3/5) }
    | none => colors
  match cssAccent with
  | some a => { colors1 with accent := rgbaToHex a }
  | none => colors1

/-- Palette refinement of `extractUrlContent` (extract-url.ts lines 106-114 and
126-132): identical to `refineColorsWithCss`, except that the CSS colors were
already normalized by `extractWithPlaywright`. -/
def applyCssColors (colors : BrandColors) (cssPrimary cssAccent : Option String) :
    BrandColors :=
  let colors1 :=
    match cssPrimary with
    | some p => { colors with primary := p, secondary := darkenHex p (3/5) }
    | none => colors
  match cssAccent with
  | some a => { colors1 with accent := a }
  | none => colors1

/-- Primary-signal resolution of `extractWithPlaywright` (extract-url.ts lines
317-322): `if (cssColors.primary) ... else if (cssColors.buttonBg) ... else if
(cssColors.linkColor) ...`, each normalized with `rgbaToHex`. -/
def resolvedPrimary (primaryVar buttonBg linkColor : Option String) : Option String :=
  match primaryVar with
  | some p => some (rgbaToHex p)
  | none =>
    match buttonBg with
    | some b => some (rgbaToHex b)
    | none =>
      match linkColor with
      | some l => some (rgbaToHex l)
      | none => none

/-- Primary signal assembled inside the docs-site page evaluation
(extract-url.ts docs tool, `return { primary: primary || buttonBg, accent }`);
the link color is not gathered at this call site. -/
def docsCssPrimarySignal (primaryVar buttonBg : Option String) : Option String :=
  match primaryVar with
  | some p => some p
  | none => buttonBg

/-- Modelled from the spec: the documented priority order for the primary color
signal, "CSS variable > button background > link color > screenshot baseline",
with the chosen CSS signal normalized by the Color Codec.  Used only to compare
the source call sites against the specified order. -/
def specPrimaryPriority (cssVar buttonBg linkColor : Option String)
    (baseline : String) : String :=
  match cssVar with
  | some v => rgbaToHex v
  | none =>
    match buttonBg with
    | some b => rgbaToHex b
    | none =>
      match linkColor with
      | some l => rgbaToHex l
      | none => baseline

/-- Result assembly of `extractBrandingWithCssColors` (extract-url.ts docs tool):
refine the screenshot baseline with the CSS signals, fixed font, theme from the
final palette. -/
def extractBrandingWithCssColors (logo : LogoInfo) (screenshotColors : BrandColors)
    (cssPrimary cssAccent : Option String) : BrandingResult :=
  let colors := refineColorsWithCss screenshotColors cssPrimary cssAccent
  { logo := logo, colors := colors,
    font := "system-ui, -apple-system, sans-serif",
    theme := detectTheme colors }

/-- The default palette substituted by the Phase-3 `catch` of
`extractDocsContent` when branding extraction throws (extract-url.ts docs tool,
the `branding = { ..., colors: { primary: ..., secondary: ..., accent: ...,
background: ... } }` fallback). -/
def fallbackColors : BrandColors :=
  { primary := "#0066FF", secondary := "#003D99", accent := "#66B3FF",
    background := "#FFFFFF" }

/-- The docs-site primary refinement with JavaScript dynamic typing made
explicit (extract-url.ts docs tool, `colors.primary = rgbaToHex(cssColors.primary);
colors.secondary = darkenHex(colors.primary, 0.6)`): when the raw signal is a
prototype-leak name, `rgbaToHex` returns a non-string object and
`darkenHex` throws (`hex.startsWith` is not a function), modelled as `none`. -/
def refinePrimaryJs (colors : BrandColors) : Option String → Option BrandColors
  | none => some colors
  | some p =>
    match rgbaToHexJs p with
    | JsColorValue.str prim =>
      some { colors with primary := prim, secondary := darkenHex prim (3/5) }
    | JsColorValue.protoObject _ => none

/-- Phase 3 of `extractDocsContent`: `try { ...extractBrandingWithCssColors... }
catch { fallback }` — a thrown refinement is replaced by the default palette.
The accent assignment follows the secondary assignment, cannot throw, and never
touches `primary` or `secondary`, so it is not modelled here. -/
def docsPhase3Colors (colors : BrandColors) (cssPrimary : Option String) :
    BrandColors :=
  (refinePrimaryJs colors cssPrimary).getD fallbackColors

/-! ### Claim-side definitions -/

/-- Modelled from the spec: "multiplies each channel by `factor`, rounds to
nearest integer" — one channel of the specified `darken`, as a natural number
(meaningful for `0 ≤ factor ≤ 1`). -/
def channelScaleN (c : Nat) (f : ℚ) : Nat := (jsRoundQ ((c : ℚ) * f)).toNat

/-- The valid inputs quantified over by the spec's `normalize` round-trip
property: canonical hex (`#RGB`, `#RRGGBB`, `#RRGGBBAA`), `rgb()`/`rgba()` with
in-range components, `hsl()`/`hsla()` with percentages in range, and table
named colors — following the branch order of `rgbaToHex`. -/
def isValidColorInput (x : String) : Bool :=
  if startsHash (jsTrimWS x.data) then
    ((jsTrimWS x.data).drop 1).all isHexDigitChar &&
      (((jsTrimWS x.data).drop 1).length == 3 ||
       ((jsTrimWS x.data).drop 1).length == 6 ||
       ((jsTrimWS x.data).drop 1).length == 8)
  else
    match scanRgb (jsTrimWS x.data) with
    | some (r, g, b) => decide (r ≤ 255 ∧ g ≤ 255 ∧ b ≤ 255)
    | none =>
      match scanHsl (jsTrimWS x.data) with
      | some (c1, c2, c3) =>
        match parseFloatJs c1, parseFloatJs c2, parseFloatJs c3 with
        | some _, some s, some l => decide (s ≤ 100 ∧ l ≤ 100)
        | _, _, _ => false
      | none => (lookupNamed (jsTrimWS x.data)).isSome

/-! ## Helper lemmas -/

theorem jsRoundQ_eq_floor (q : ℚ) : jsRoundQ q = ⌊q + 1/2⌋ := by
  rw [jsRoundQ, Rat.floor_def', ← Rat.floor_def]

theorem jsRoundQ_eq_of {q : ℚ} {z : ℤ} (h1 : (z : ℚ) ≤ q + 1/2)
    (h2 : q + 1/2 < z + 1) : jsRoundQ q = z := by
  rw [jsRoundQ_eq_floor]
  exact Int.floor_eq_iff.mpr ⟨h1, h2⟩

theorem toHexDigitsAux_congr : ∀ {n f1 f2 : Nat}, n < f1 → n < f2 →
    toHexDigitsAux f1 n = toHexDigitsAux f2 n := by
  intro n
  induction n using Nat.strong_induction_on with
  | _ n ih =>
    intro f1 f2 h1 h2
    cases f1 with
    | zero => omega
    | succ fp1 =>
      cases f2 with
      | zero => omega
      | succ fp2 =>
        simp only [toHexDigitsAux]
        by_cases h16 : n < 16
        · simp [h16]
        · rw [if_neg h16, if_neg h16]
          have hdiv : n / 16 < n := Nat.div_lt_self (by omega) (by omega)
          congr 1
          exact ih (n / 16) hdiv (by omega) (by omega)

theorem toHexDigits_unfold (n : Nat) :
    toHexDigits n =
      if n < 16 then [hexDigitChar n]
      else toHexDigits (n / 16) ++ [hexDigitChar (n % 16)] := by
  rw [toHexDigits, toHexDigitsAux]
  by_cases h16 : n < 16
  · simp [h16]
  · rw [if_neg h16, if_neg h16]
    have hdiv : n / 16 < n := Nat.div_lt_self (by omega) (by omega)
    have hcg : toHexDigitsAux n (n / 16) = toHexDigitsAux (n / 16 + 1) (n / 16) :=
      toHexDigitsAux_congr (by omega) (by omega)
    rw [hcg]
    rfl

theorem takeWhile_eq_nil_of {p : Char → Bool} {l : List Char}
    (h : ∀ c ∈ l, p c = false) : l.takeWhile p = [] := by
  cases l with
  | nil => rfl
  | cons c rest => simp [List.takeWhile_cons, h c (by simp)]

theorem dropWhile_eq_self_of {p : Char → Bool} {l : List Char}
    (h : ∀ c ∈ l, p c = false) : l.dropWhile p = l := by
  cases l with
  | nil => rfl
  | cons c rest => simp [List.dropWhile_cons, h c (by simp)]

theorem mem_of_mem_dropWhile {p : Char → Bool} {l : List Char} {c : Char}
    (h : c ∈ l.dropWhile p) : c ∈ l :=
  (List.dropWhile_sublist p (l := l)).mem h

theorem mem_of_mem_takeWhile {p : Char → Bool} {l : List Char} {c : Char}
    (h : c ∈ l.takeWhile p) : c ∈ l :=
  (List.takeWhile_sublist p (l := l)).mem h

theorem jsTrimWS_eq_self {l : List Char} (h : ∀ c ∈ l, jsWS c = false) :
    jsTrimWS l = l := by
  unfold jsTrimWS
  rw [dropWhile_eq_self_of h, dropWhile_eq_self_of (by intro c hc; exact h c (by simpa using hc))]
  simp

theorem mem_of_mem_jsTrimWS {l : List Char} {c : Char} (h : c ∈ jsTrimWS l) : c ∈ l := by
  unfold jsTrimWS at h
  rw [List.mem_reverse] at h
  have h2 := mem_of_mem_dropWhile h
  rw [List.mem_reverse] at h2
  exact mem_of_mem_dropWhile h2

theorem not_ws_of_hexDigit {c : Char} (h : isHexDigitChar c = true) : jsWS c = false := by
  simp only [jsWS, Char.isWhitespace]
  by_contra hw
  rw [Bool.not_eq_false] at hw
  simp only [Bool.or_eq_true, decide_eq_true_eq] at hw
  rcases hw with ((h1 | h1) | h1) | h1 <;> subst h1 <;> exact absurd h (by decide)

theorem hexDigitChar_isHex {n : Nat} (h : n < 16) :
    isHexDigitChar (hexDigitChar n) = true := by
  interval_cases n <;> decide

theorem hexCharVal_hexDigitChar {n : Nat} (h : n < 16) :
    hexCharVal (hexDigitChar n) = n := by
  interval_cases n <;> decide

theorem toHexDigits_lt16 {n : Nat} (h : n < 16) : toHexDigits n = [hexDigitChar n] := by
  rw [toHexDigits_unfold]
  simp [h]

theorem byteHexPair {a b : Nat} (ha : a < 16) (hb : b < 16) :
    pad2 (toHexDigits (16 * a + b)) = [hexDigitChar a, hexDigitChar b] := by
  by_cases h0 : a = 0
  · subst h0
    simp only [Nat.mul_zero, Nat.zero_add]
    rw [toHexDigits_lt16 hb]
    simp [pad2, hexDigitChar]
  · have h16 : ¬ (16 * a + b < 16) := by omega
    rw [toHexDigits_unfold, if_neg h16]
    have hdiv : (16 * a + b) / 16 = a := by omega
    have hmod : (16 * a + b) % 16 = b := by omega
    rw [hdiv, hmod, toHexDigits_lt16 ha]
    simp [pad2]

theorem rgbByte_spec {n : Nat} (h : n < 256) :
    rgbByte n = [hexDigitChar (n / 16), hexDigitChar (n % 16)] := by
  have h1 : 16 * (n / 16) + n % 16 = n := Nat.div_add_mod n 16
  rw [rgbByte]
  conv_lhs => rw [← h1]
  exact byteHexPair (by omega) (by omega)

theorem rgbByte_len {n : Nat} (h : n < 256) : (rgbByte n).length = 2 := by
  rw [rgbByte_spec h]; rfl

theorem rgbByte_hex {n : Nat} (h : n < 256) :
    ∀ c ∈ rgbByte n, isHexDigitChar c = true := by
  rw [rgbByte_spec h]
  intro c hc
  simp only [List.mem_cons, List.not_mem_nil, or_false] at hc
  rcases hc with h1 | h1 <;> subst h1
  · exact hexDigitChar_isHex (by omega)
  · exact hexDigitChar_isHex (by omega)

theorem hexBranch_len_ne4 {t : List Char} (h : t.length ≠ 4) :
    hexBranch t = t.take 7 := by
  rcases t with _ | ⟨a, _ | ⟨b, _ | ⟨c, _ | ⟨d, _ | ⟨e, rest⟩⟩⟩⟩⟩ <;> first
    | rfl
    | exact absurd rfl h

/-- A string already in canonical `#` + six-hex-digit form is a fixed point of
`rgbaToHex`. -/
theorem rgbaToHexL_canon {ds : List Char} (h6 : ds.length = 6)
    (hhex : ∀ c ∈ ds, isHexDigitChar c = true) :
    rgbaToHexL ('#' :: ds) = '#' :: ds := by
  have htrim : jsTrimWS ('#' :: ds) = '#' :: ds := by
    apply jsTrimWS_eq_self
    intro c hc
    rcases List.mem_cons.mp hc with h1 | h1
    · subst h1; decide
    · exact not_ws_of_hexDigit (hhex c h1)
  rw [rgbaToHexL, if_neg (by simp), htrim, rgbaToHexTrimmed,
    if_pos (show startsHash ('#' :: ds) = true by rfl),
    hexBranch_len_ne4 (by simp [h6])]
  exact List.take_of_length_le (by simp [h6])

theorem lumCond (r g b : Nat) :
    ((128 : ℚ) < (299 * r + 587 * g + 114 * b : ℚ) / 1000) ↔
      128000 < 299 * r + 587 * g + 114 * b := by
  rw [lt_div_iff₀ (by norm_num : (0:ℚ) < 1000)]
  constructor
  · intro h
    have h2 : ((128000 : ℚ)) < ((299 * r + 587 * g + 114 * b : Nat) : ℚ) := by
      push_cast
      linarith
    exact_mod_cast h2
  · intro h
    have h2 : ((128000 : ℚ)) < ((299 * r + 587 * g + 114 * b : Nat) : ℚ) := by
      exact_mod_cast h
    push_cast at h2
    linarith

theorem detectThemeVal_natCast (N : Nat) (hlt : N < 4294967296) :
    detectThemeVal (N : Int) =
      (if 128000 < 299 * (N / 65536 % 256) + 587 * (N / 256 % 256) + 114 * (N % 256)
       then Theme.light else Theme.dark) := by
  rw [detectThemeVal]
  have hmod : (((N : Int)) % 4294967296).toNat = N := by
    rw [Int.emod_eq_of_lt (Int.natCast_nonneg N) (by exact_mod_cast hlt)]
    exact Int.toNat_natCast N
  rw [hmod]
  by_cases hc : 128000 < 299 * (N / 65536 % 256) + 587 * (N / 256 % 256) + 114 * (N % 256)
  · rw [if_pos ((lumCond _ _ _).mpr hc), if_pos hc]
  · rw [if_neg (fun hq => hc ((lumCond _ _ _).mp hq)), if_neg hc]


theorem afterRgbOpen_subset {l r : List Char} (h : afterRgbOpen l = some r) :
    ∀ c ∈ r, c ∈ l := by
  unfold afterRgbOpen at h
  split at h <;> simp_all

theorem afterHslOpen_subset {l r : List Char} (h : afterHslOpen l = some r) :
    ∀ c ∈ r, c ∈ l := by
  unfold afterHslOpen at h
  split at h <;> simp_all

theorem matchNum_none {l : List Char} (h : ∀ c ∈ l, c.isDigit = false) :
    matchNum l = none := by
  have h1 : (l.dropWhile jsWS).takeWhile Char.isDigit = [] :=
    takeWhile_eq_nil_of (fun c hc => h c (mem_of_mem_dropWhile hc))
  simp [matchNum, h1]

theorem matchNumDots_none {l : List Char}
    (h : ∀ c ∈ l, (c.isDigit || c = '.') = false) :
    matchNumDots l = none := by
  have h1 : (l.dropWhile jsWS).takeWhile (fun c => c.isDigit || c = '.') = [] :=
    takeWhile_eq_nil_of (fun c hc => h c (mem_of_mem_dropWhile hc))
  simp [matchNumDots, h1]

theorem matchRgbAt_none {l : List Char} (h : ∀ c ∈ l, c.isDigit = false) :
    matchRgbAt l = none := by
  unfold matchRgbAt
  cases hao : afterRgbOpen l with
  | none => rfl
  | some rest =>
    have : matchNum rest = none :=
      matchNum_none (fun c hc => h c (afterRgbOpen_subset hao c hc))
    simp [Option.bind, this]

theorem matchHslAt_none {l : List Char}
    (h : ∀ c ∈ l, (c.isDigit || c = '.') = false) :
    matchHslAt l = none := by
  unfold matchHslAt
  cases hao : afterHslOpen l with
  | none => rfl
  | some rest =>
    have : matchNumDots rest = none :=
      matchNumDots_none (fun c hc => h c (afterHslOpen_subset hao c hc))
    simp [Option.bind, this]

theorem scanRgb_none {l : List Char} (h : ∀ c ∈ l, c.isDigit = false) :
    scanRgb l = none := by
  induction l with
  | nil => rfl
  | cons c rest ih =>
    rw [scanRgb, matchRgbAt_none h]
    exact ih (fun d hd => h d (List.mem_cons_of_mem c hd))

theorem scanHsl_none {l : List Char}
    (h : ∀ c ∈ l, (c.isDigit || c = '.') = false) :
    scanHsl l = none := by
  induction l with
  | nil => rfl
  | cons c rest ih =>
    rw [scanHsl, matchHslAt_none h]
    exact ih (fun d hd => h d (List.mem_cons_of_mem c hd))

theorem toHexDigits_chars {n : Nat} :
    ∀ c ∈ toHexDigits n, (c.isDigit || ('a' ≤ c && c ≤ 'f')) = true := by
  induction n using Nat.strong_induction_on with
  | _ n ih =>
    intro c hc
    rw [toHexDigits_unfold] at hc
    by_cases h16 : n < 16
    · rw [if_pos h16] at hc
      simp only [List.mem_singleton] at hc
      subst hc
      interval_cases n <;> decide
    · rw [if_neg h16] at hc
      rcases List.mem_append.mp hc with h1 | h1
      · exact ih (n / 16) (Nat.div_lt_self (by omega) (by omega)) c h1
      · simp only [List.mem_singleton] at h1
        subst h1
        have : n % 16 < 16 := Nat.mod_lt n (by omega)
        interval_cases h : (n % 16) <;> decide

theorem intToHexChars_chars {i : Int} :
    ∀ c ∈ intToHexChars i, (c.isDigit || ('a' ≤ c && c ≤ 'f') || c = '-') = true := by
  intro c hc
  unfold intToHexChars at hc
  split at hc
  · rcases List.mem_cons.mp hc with h1 | h1
    · subst h1; decide
    · have := toHexDigits_chars c h1
      simp only [Bool.or_eq_true] at this ⊢
      tauto
  · have := toHexDigits_chars c hc
    simp only [Bool.or_eq_true] at this ⊢
    tauto

theorem pad2_chars {l : List Char} {c : Char} (h : c ∈ pad2 l) :
    c = '0' ∨ c ∈ l := by
  unfold pad2 at h
  split at h
  · exact Or.inr h
  · rcases List.mem_append.mp h with h1 | h1
    · exact Or.inl (List.eq_of_mem_replicate h1)
    · exact Or.inr h1

theorem pad2_intToHexChars_no_D {i : Int} : 'D' ∉ pad2 (intToHexChars i) := by
  intro h
  rcases pad2_chars h with h1 | h1
  · exact absurd h1 (by decide)
  · exact absurd (intToHexChars_chars _ h1) (by decide)

theorem darken_success_ne_sentinel {i1 i2 i3 : Int} :
    '#' :: (pad2 (intToHexChars i1) ++ pad2 (intToHexChars i2) ++ pad2 (intToHexChars i3)) ≠
      "#003D99".data := by
  intro heq
  have hD : 'D' ∈ '#' ::
      (pad2 (intToHexChars i1) ++ pad2 (intToHexChars i2) ++ pad2 (intToHexChars i3)) := by
    rw [heq]; decide
  rcases List.mem_cons.mp hD with h1 | h1
  · exact absurd h1 (by decide)
  · rcases List.mem_append.mp h1 with h2 | h2
    · rcases List.mem_append.mp h2 with h3 | h3
      · exact pad2_intToHexChars_no_D h3
      · exact pad2_intToHexChars_no_D h3
    · exact pad2_intToHexChars_no_D h2

/-! ## Claim theorems -/

/-- C10 (confirmed): for every trimmed input beginning with a hash whose length
is not 4, `normalize` returns exactly its first seven characters verbatim — no
digit validation and no case folding; for hash-inputs of length exactly 4, the
three characters after the hash are duplicated, again without validation.  In
particular uppercase `#FF6600` survives unchanged and garbage `#zzzzzz` is
returned verbatim. -/
theorem claim_C10_hash_passthrough :
    (∀ s : String, startsHash (jsTrimWS s.data) = true →
      ((jsTrimWS s.data).length ≠ 4 →
        (rgbaToHex s).data = (jsTrimWS s.data).take 7) ∧
      (∀ c0 r g b, jsTrimWS s.data = [c0, r, g, b] →
        (rgbaToHex s).data = ['#', r, r, g, g, b, b])) ∧
    rgbaToHex "#FF6600" = "#FF6600" ∧ rgbaToHex "#zzzzzz" = "#zzzzzz" ∧
    rgbaToHex "#zzz" = "#zzzzzz" := by
  refine ⟨?_, by decide, by decide, by decide⟩
  intro s h
  have hne : s.data ≠ [] := by
    intro h0
    rw [h0] at h
    exact absurd h (by decide)
  have hdata : (rgbaToHex s).data = rgbaToHexL s.data := rfl
  rw [hdata, rgbaToHexL, if_neg hne, rgbaToHexTrimmed, if_pos h]
  constructor
  · intro hlen
    exact hexBranch_len_ne4 hlen
  · intro c0 r g b heq
    rw [heq]
    rfl

/-- Witness for C10 at the concrete input `#FF6600AA`. -/
theorem claim_C10_witness :
    (rgbaToHex "#FF6600AA").data = (jsTrimWS "#FF6600AA".data).take 7 :=
  (claim_C10_hash_passthrough.1 "#FF6600AA" (by decide)).1 (by decide)

/-- Off the two prototype-leak names, the dynamically-typed codec agrees with
the string-typed one branch by branch. -/
theorem rgbaToHexJs_agree {s : String} (h : isProtoLeak (jsTrimWS s.data) = false) :
    rgbaToHexJs s = JsColorValue.str (rgbaToHex s) := by
  rw [rgbaToHexJs, rgbaToHex]
  by_cases hnil : s.data = []
  · rw [if_pos hnil, rgbaToHexL, if_pos hnil]
  · rw [if_neg hnil, rgbaToHexL, if_neg hnil, rgbaToHexTrimmedJs, rgbaToHexTrimmed]
    by_cases hh : startsHash (jsTrimWS s.data) = true
    · rw [if_pos hh, if_pos hh]
    · rw [if_neg hh, if_neg hh]
      rcases hr : scanRgb (jsTrimWS s.data) with _ | ⟨r, g, b⟩
      · rcases hhs : scanHsl (jsTrimWS s.data) with _ | ⟨c1, c2, c3⟩
        · rcases hlk : lookupNamed (jsTrimWS s.data) with _ | v
          · show (if isProtoLeak (jsTrimWS s.data) = true then
                JsColorValue.protoObject ((jsTrimWS s.data).map Char.toLower)
              else JsColorValue.str "#0066FF") = JsColorValue.str "#0066FF"
            rw [if_neg (by simp [h])]
          · rfl
        · rfl
      · rfl

/-- C2 counterexample: the garbage string `#zzzzzz` is an unsupported input on
which `normalize` does not return the sentinel `#0066FF` — it is returned
verbatim. -/
theorem claim_C2_counterexample :
    rgbaToHex "#zzzzzz" = "#zzzzzz" ∧ rgbaToHex "#zzzzzz" ≠ "#0066FF" := by
  constructor
  · decide
  · decide

/-- C2 (amended): `normalize` never throws, and returns exactly the sentinel
`#0066FF` on `null`/`undefined`, the empty string, modern color functions such
as `oklch(...)` and `lab(...)`, and every garbage string whose trimmed form
does not begin with a hash, contains no digit and no dot, is not a named
color, and whose lowercased form is not an inherited `Object.prototype` member
name.  On the two reachable such names, `constructor` and `__proto__`, the
bracket lookup `namedColors[lower]` returns the inherited member — a truthy
non-string object — instead of the sentinel.  (Hash-prefixed garbage is
instead returned verbatim — see C10.) -/
theorem claim_C2_unsupported_sentinel :
    rgbaToHexNullable none = "#0066FF" ∧
    rgbaToHex "" = "#0066FF" ∧
    rgbaToHex "oklch(0.7 0.15 200)" = "#0066FF" ∧
    rgbaToHex "lab(50% 40 60)" = "#0066FF" ∧
    rgbaToHex "not-a-color" = "#0066FF" ∧
    rgbaToHexJs "constructor" = JsColorValue.protoObject "constructor".data ∧
    rgbaToHexJs "__proto__" = JsColorValue.protoObject "__proto__".data ∧
    ∀ s : String, startsHash (jsTrimWS s.data) = false →
      (∀ c ∈ jsTrimWS s.data, c.isDigit = false ∧ c ≠ '.') →
      lookupNamed (jsTrimWS s.data) = none →
      isProtoLeak (jsTrimWS s.data) = false →
      rgbaToHexJs s = JsColorValue.str "#0066FF" ∧ rgbaToHex s = "#0066FF" := by
  refine ⟨by decide, by decide, by decide, by decide, by decide, by decide, by decide, ?_⟩
  intro s hh hc hl hpl
  have hstr : rgbaToHex s = "#0066FF" := by
    apply String.ext
    show rgbaToHexL s.data = "#0066FF".data
    by_cases hnil : s.data = []
    · rw [rgbaToHexL, if_pos hnil]
    · have hrgb : scanRgb (jsTrimWS s.data) = none :=
        scanRgb_none (fun c h1 => (hc c h1).1)
      have hhsl : scanHsl (jsTrimWS s.data) = none := by
        apply scanHsl_none
        intro c h1
        have h2 := hc c h1
        simp [h2.1, h2.2]
      rw [rgbaToHexL, if_neg hnil, rgbaToHexTrimmed, if_neg (by simp [hh]), hrgb, hhsl, hl]
  exact ⟨by rw [rgbaToHexJs_agree hpl, hstr], hstr⟩

/-- Witness for C2 at the concrete garbage input `garbage-string`. -/
theorem claim_C2_witness :
    rgbaToHexJs "garbage-string" = JsColorValue.str "#0066FF" ∧
    rgbaToHex "garbage-string" = "#0066FF" :=
  claim_C2_unsupported_sentinel.2.2.2.2.2.2.2 "garbage-string" (by decide) (by decide)
    (by decide) (by decide)

/-- C5 counterexample: `#1z2z3z` is not a hash followed by six valid hex
digits, yet `darken` does not return the sentinel `#003D99`: the lenient
`parseInt` reads the digit prefixes `1`, `2`, `3` and the result is
`#010203`. -/
theorem claim_C5_counterexample :
    darkenHex "#1z2z3z" 1 = "#010203" ∧ darkenHex "#1z2z3z" 1 ≠ "#003D99" := by
  have h1 : darkenHex "#1z2z3z" 1 = "#010203" := by
    apply String.ext
    show darkenHexL "#1z2z3z".data 1 = "#010203".data
    rw [darkenHexL, if_neg (by decide),
      show parseIntHexL (("#1z2z3z".data.drop 1).take 2) = some 1 from by decide,
      show parseIntHexL ((("#1z2z3z".data.drop 1).drop 2).take 2) = some 2 from by decide,
      show parseIntHexL ((("#1z2z3z".data.drop 1).drop 4).take 2) = some 3 from by decide]
    show '#' :: pad2 (intToHexChars (jsRoundQ (((1 : Int) : ℚ) * 1)))
        ++ pad2 (intToHexChars (jsRoundQ (((2 : Int) : ℚ) * 1)))
        ++ pad2 (intToHexChars (jsRoundQ (((3 : Int) : ℚ) * 1))) = "#010203".data
    rw [show jsRoundQ (((1 : Int) : ℚ) * 1) = 1 from jsRoundQ_eq_of (by norm_num) (by norm_num),
      show jsRoundQ (((2 : Int) : ℚ) * 1) = 2 from jsRoundQ_eq_of (by norm_num) (by norm_num),
      show jsRoundQ (((3 : Int) : ℚ) * 1) = 3 from jsRoundQ_eq_of (by norm_num) (by norm_num)]
    decide
  refine ⟨h1, ?_⟩
  rw [h1]
  decide

/-- C5 (amended): `darken` returns the sentinel `#003D99` exactly when the
input does not start with a hash, is shorter than 7 characters, or one of the
three 2-character channel substrings has no parseable hex prefix (JavaScript
`parseInt(_, 16)` is NaN); in particular the claim examples `not-hex` and
`#abc` give the sentinel for every factor, and the sentinel is distinct from
the normalize sentinel `#0066FF`. -/
theorem claim_C5_darken_sentinel :
    (∀ (hex : String) (f : ℚ),
      darkenHex hex f = "#003D99" ↔
        startsHash hex.data = false ∨ hex.data.length < 7 ∨
        parseIntHexL ((hex.data.drop 1).take 2) = none ∨
        parseIntHexL (((hex.data.drop 1).drop 2).take 2) = none ∨
        parseIntHexL (((hex.data.drop 1).drop 4).take 2) = none) ∧
    (∀ f : ℚ, darkenHex "not-hex" f = "#003D99") ∧
    (∀ f : ℚ, darkenHex "#abc" f = "#003D99") ∧
    ("#003D99" : String) ≠ "#0066FF" := by
  refine ⟨?_, ?_, ?_, by decide⟩
  · intro hex f
    have hdata : darkenHex hex f = "#003D99" ↔ darkenHexL hex.data f = "#003D99".data := by
      constructor
      · intro h
        have := congrArg String.data h
        exact this
      · intro h
        apply String.ext
        exact h
    rw [hdata]
    by_cases hg : startsHash hex.data = false ∨ hex.data.length < 7
    · rw [darkenHexL, if_pos hg]
      refine iff_of_true rfl ?_
      rcases hg with h | h
      · exact Or.inl h
      · exact Or.inr (Or.inl h)
    · obtain ⟨hgA, hgB⟩ := not_or.mp hg
      rw [darkenHexL, if_neg hg]
      cases hp1 : parseIntHexL ((hex.data.drop 1).take 2) with
      | none =>
        exact iff_of_true rfl (Or.inr (Or.inr (Or.inl rfl)))
      | some r =>
        cases hp2 : parseIntHexL (((hex.data.drop 1).drop 2).take 2) with
        | none =>
          exact iff_of_true rfl (Or.inr (Or.inr (Or.inr (Or.inl rfl))))
        | some g =>
          cases hp3 : parseIntHexL (((hex.data.drop 1).drop 4).take 2) with
          | none =>
            exact iff_of_true rfl (Or.inr (Or.inr (Or.inr (Or.inr rfl))))
          | some b =>
            refine iff_of_false darken_success_ne_sentinel ?_
            intro hcon
            rcases hcon with h | h | h | h | h
            · exact hgA h
            · exact hgB h
            · exact Option.noConfusion h
            · exact Option.noConfusion h
            · exact Option.noConfusion h
  · intro f
    apply String.ext
    show darkenHexL "not-hex".data f = "#003D99".data
    rw [darkenHexL, if_pos (by decide)]
  · intro f
    apply String.ext
    show darkenHexL "#abc".data f = "#003D99".data
    rw [darkenHexL, if_pos (by decide)]

/-- Witness for C5: the sentinel equivalence applied at `#abc` with factor 0. -/
theorem claim_C5_witness : darkenHex "#abc" 0 = "#003D99" :=
  (claim_C5_darken_sentinel.1 "#abc" 0).mpr (by decide)

theorem tryPaths_fst (probe : String → Option Nat) (l : List String) :
    (tryPaths probe l).1 = l.find? (fun p => probe p == some 200) := by
  induction l with
  | nil => rfl
  | cons p rest ih =>
    by_cases h : probe p = some 200
    · simp [tryPaths, h, List.find?_cons]
    · simp [tryPaths, h, List.find?_cons, ih]

theorem tryPaths_trace_all (probe : String → Option Nat) (l : List String)
    (h : l.find? (fun p => probe p == some 200) = none) : (tryPaths probe l).2 = l := by
  induction l with
  | nil => rfl
  | cons p rest ih =>
    have hp : ¬ probe p = some 200 := by
      intro hc
      rw [List.find?_cons] at h
      simp [hc] at h
    have hfind : rest.find? (fun q => probe q == some 200) = none := by
      have hb : (probe p == some 200) = false := by simp [hp]
      rw [List.find?_cons, hb] at h
      exact h
    have htr := ih hfind
    rcases h2 : tryPaths probe rest with ⟨r, tr⟩
    rw [h2] at htr
    simp only at htr
    subst htr
    simp [tryPaths, hp, h2]

/-- C1 counterexample: with no CSS primary signal at all (all signals absent)
the orchestrator keeps the screenshot baseline palette unchanged, so a baseline
whose secondary is not the 0.6-darkening of its primary survives to the final
`BrandingResult`: here secondary stays `#123456` while
`darken(primary, 0.6) = #990000`. -/
theorem claim_C1_counterexample :
    (extractBrandingWithCssColors ⟨"https://logo.clearbit.com/x.com", .high⟩
        ⟨"#FF0000", "#123456", "#66B3FF", "#FFFFFF"⟩ none none).colors.secondary ≠
      darkenHex
        (extractBrandingWithCssColors ⟨"https://logo.clearbit.com/x.com", .high⟩
          ⟨"#FF0000", "#123456", "#66B3FF", "#FFFFFF"⟩ none none).colors.primary
        (3/5) := by
  show ("#123456" : String) ≠ darkenHex "#FF0000" (3/5)
  have h1 : darkenHex "#FF0000" (3/5) = "#990000" := by
    apply String.ext
    show darkenHexL "#FF0000".data (3/5) = "#990000".data
    rw [darkenHexL, if_neg (by decide),
      show parseIntHexL (("#FF0000".data.drop 1).take 2) = some 255 from by decide,
      show parseIntHexL ((("#FF0000".data.drop 1).drop 2).take 2) = some 0 from by decide,
      show parseIntHexL ((("#FF0000".data.drop 1).drop 4).take 2) = some 0 from by decide]
    show '#' :: pad2 (intToHexChars (jsRoundQ (((255 : Int) : ℚ) * (3/5))))
        ++ pad2 (intToHexChars (jsRoundQ (((0 : Int) : ℚ) * (3/5))))
        ++ pad2 (intToHexChars (jsRoundQ (((0 : Int) : ℚ) * (3/5)))) = "#990000".data
    rw [show jsRoundQ (((255 : Int) : ℚ) * (3/5)) = 153 from
        jsRoundQ_eq_of (by norm_num) (by norm_num),
      show jsRoundQ (((0 : Int) : ℚ) * (3/5)) = 0 from
        jsRoundQ_eq_of (by norm_num) (by norm_num)]
    decide
  rw [h1]
  decide

/-- C1 (amended): whenever a CSS primary signal is present and its
normalization stays a string (the trimmed lowercased signal is not one of the
inherited `Object.prototype` member names reachable through
`namedColors[...]`), the refined palette satisfies
`secondary = darken(primary, 0.6)` — at both orchestrator call sites; when the
raw docs-site signal is such a prototype-leak name, `rgbaToHex` returns a
non-string, `darkenHex` throws, and the Phase-3 `catch` substitutes the
default palette — whose `secondary` `#003D99` is not the 0.6-darkening of its
`primary` (`#003d99`, lowercase); with no CSS primary signal, `primary` and
`secondary` keep the screenshot-baseline values. -/
theorem claim_C1_secondary_derived :
    (∀ (colors : BrandColors) (p : String) (acc : Option String),
      (rgbaToHexJs p).isString = true →
      (refineColorsWithCss colors (some p) acc).secondary =
        darkenHex (refineColorsWithCss colors (some p) acc).primary (3/5)) ∧
    (∀ (colors : BrandColors) (p : String) (acc : Option String),
      (applyCssColors colors (some p) acc).secondary =
        darkenHex (applyCssColors colors (some p) acc).primary (3/5)) ∧
    (∀ (colors : BrandColors) (p : String),
      (rgbaToHexJs p).isString = false →
      docsPhase3Colors colors (some p) = fallbackColors) ∧
    fallbackColors.secondary ≠ darkenHex fallbackColors.primary (3/5) ∧
    (∀ (colors : BrandColors) (acc : Option String),
      (refineColorsWithCss colors none acc).secondary = colors.secondary ∧
      (refineColorsWithCss colors none acc).primary = colors.primary) := by
  refine ⟨?_, ?_, ?_, ?_, ?_⟩
  · intro colors p acc _
    cases acc <;> rfl
  · intro colors p acc
    cases acc <;> rfl
  · intro colors p h
    rcases hrv : rgbaToHexJs p with s | nm
    · rw [hrv] at h
      exact Bool.noConfusion h
    · have hnone : refinePrimaryJs colors (some p) = none := by
        simp only [refinePrimaryJs, hrv]
      rw [docsPhase3Colors, hnone]
      rfl
  · have h1 : darkenHex "#0066FF" (3/5) = "#003d99" := by
      apply String.ext
      show darkenHexL "#0066FF".data (3/5) = "#003d99".data
      rw [darkenHexL, if_neg (by decide),
        show parseIntHexL (("#0066FF".data.drop 1).take 2) = some 0 from by decide,
        show parseIntHexL ((("#0066FF".data.drop 1).drop 2).take 2) = some 102 from by decide,
        show parseIntHexL ((("#0066FF".data.drop 1).drop 4).take 2) = some 255 from by decide]
      show '#' :: pad2 (intToHexChars (jsRoundQ (((0 : Int) : ℚ) * (3/5))))
          ++ pad2 (intToHexChars (jsRoundQ (((102 : Int) : ℚ) * (3/5))))
          ++ pad2 (intToHexChars (jsRoundQ (((255 : Int) : ℚ) * (3/5)))) = "#003d99".data
      rw [show jsRoundQ (((0 : Int) : ℚ) * (3/5)) = 0 from
          jsRoundQ_eq_of (by norm_num) (by norm_num),
        show jsRoundQ (((102 : Int) : ℚ) * (3/5)) = 61 from
          jsRoundQ_eq_of (by norm_num) (by norm_num),
        show jsRoundQ (((255 : Int) : ℚ) * (3/5)) = 153 from
          jsRoundQ_eq_of (by norm_num) (by norm_num)]
      decide
    show ("#003D99" : String) ≠ darkenHex "#0066FF" (3/5)
    rw [h1]
    decide
  · intro colors acc
    cases acc <;> exact ⟨rfl, rfl⟩

/-- Witness for C1: the normalizable signal `#FF0000` keeps the darkening
invariant, and the prototype-leak signal `constructor` reaches the fallback
palette through the Phase-3 `catch`. -/
theorem claim_C1_witness :
    (refineColorsWithCss ⟨"#AAAAAA", "#BBBBBB", "#CCCCCC", "#FFFFFF"⟩
        (some "#FF0000") none).secondary =
      darkenHex (refineColorsWithCss ⟨"#AAAAAA", "#BBBBBB", "#CCCCCC", "#FFFFFF"⟩
        (some "#FF0000") none).primary (3/5) ∧
    docsPhase3Colors ⟨"#AAAAAA", "#BBBBBB", "#CCCCCC", "#FFFFFF"⟩
        (some "constructor") = fallbackColors :=
  ⟨claim_C1_secondary_derived.1 ⟨"#AAAAAA", "#BBBBBB", "#CCCCCC", "#FFFFFF"⟩
      "#FF0000" none (by decide),
   claim_C1_secondary_derived.2.2.1 ⟨"#AAAAAA", "#BBBBBB", "#CCCCCC", "#FFFFFF"⟩
      "constructor" (by decide)⟩

/-- C4 (confirmed): at both orchestrator call sites the primary-color signal
follows the fixed priority order CSS variable > button background > link color
> screenshot baseline (the docs call site gathers no link color, i.e. the link
signal is absent there). -/
theorem claim_C4_priority_order :
    (∀ (pv bb lc : Option String) (colors : BrandColors) (acc : Option String),
      (applyCssColors colors (resolvedPrimary pv bb lc) acc).primary =
        specPrimaryPriority pv bb lc colors.primary) ∧
    (∀ (pv bb : Option String) (colors : BrandColors) (acc : Option String),
      (refineColorsWithCss colors (docsCssPrimarySignal pv bb) acc).primary =
        specPrimaryPriority pv bb none colors.primary) := by
  constructor
  · intro pv bb lc colors acc
    cases pv <;> cases bb <;> cases lc <;> cases acc <;> rfl
  · intro pv bb colors acc
    cases pv <;> cases bb <;> cases acc <;> rfl

/-- C9 (confirmed): the refinement step can only overwrite `primary`,
`secondary` and `accent`; the `background` of the final `BrandingResult` is
always the screenshot-extractor background, for every combination of CSS
signals. -/
theorem claim_C9_background_preserved :
    ∀ (colors : BrandColors) (cssP cssA : Option String) (logo : LogoInfo),
      (refineColorsWithCss colors cssP cssA).background = colors.background ∧
      (applyCssColors colors cssP cssA).background = colors.background ∧
      (extractBrandingWithCssColors logo colors cssP cssA).colors.background =
        colors.background := by
  intro colors cssP cssA logo
  refine ⟨?_, ?_, ?_⟩ <;> cases cssP <;> cases cssA <;> rfl

/-- C3 (confirmed): the Logo Resolver is a total function returning exactly one
result.  If the brand-API (Clearbit) probe returns HTTP 200 the result is that
URL with quality `high` and nothing else is probed; otherwise the first of the
six fixed common paths (declared order) with HTTP 200 gives quality `medium`
and no warning; if every probe fails, the result is the favicon-service URL
keyed by domain, quality `favicon`, with exactly one warning appended. -/
theorem claim_C3_logo_resolver :
    ∀ (probe : String → Option Nat) (domain origin : String) (ws : List String),
      (probe (clearbitUrl domain) = some 200 →
        extractLogoFromCloud probe domain origin ws =
          { url := clearbitUrl domain, quality := .high, warnings := ws,
            probed := [clearbitUrl domain] }) ∧
      (probe (clearbitUrl domain) ≠ some 200 →
        ∀ p, (commonPaths origin).find? (fun q => probe q == some 200) = some p →
          (extractLogoFromCloud probe domain origin ws).url = p ∧
          (extractLogoFromCloud probe domain origin ws).quality = .medium ∧
          (extractLogoFromCloud probe domain origin ws).warnings = ws) ∧
      (probe (clearbitUrl domain) ≠ some 200 →
        (commonPaths origin).find? (fun q => probe q == some 200) = none →
          extractLogoFromCloud probe domain origin ws =
            { url := faviconUrl domain, quality := .favicon,
              warnings := ws ++ ["No high-quality logo found for " ++ domain ++
                ". Using Google favicon (256px)."],
              probed := clearbitUrl domain :: commonPaths origin }) := by
  intro probe domain origin ws
  refine ⟨?_, ?_, ?_⟩
  · intro h
    rw [extractLogoFromCloud, if_pos h]
  · intro h p hp
    rw [extractLogoFromCloud, if_neg h]
    have h1 : (tryPaths probe (commonPaths origin)).1 = some p := by
      rw [tryPaths_fst]; exact hp
    rcases htp : tryPaths probe (commonPaths origin) with ⟨found, trace⟩
    rw [htp] at h1
    simp only at h1
    subst h1
    exact ⟨rfl, rfl, rfl⟩
  · intro h hnone
    rw [extractLogoFromCloud, if_neg h]
    have h1 : (tryPaths probe (commonPaths origin)).1 = none := by
      rw [tryPaths_fst]; exact hnone
    have h2 : (tryPaths probe (commonPaths origin)).2 = commonPaths origin :=
      tryPaths_trace_all probe _ hnone
    rcases htp : tryPaths probe (commonPaths origin) with ⟨found, trace⟩
    rw [htp] at h1 h2
    simp only at h1 h2
    subst h1
    subst h2
    rfl

/-- Witness for C3: a probe environment where Clearbit answers 200. -/
theorem claim_C3_witness :
    extractLogoFromCloud
        (fun u => if u = "https://logo.clearbit.com/acme.com" then some 200 else none)
        "acme.com" "https://acme.com" [] =
      { url := clearbitUrl "acme.com", quality := .high, warnings := [],
        probed := [clearbitUrl "acme.com"] } :=
  (claim_C3_logo_resolver
    (fun u => if u = "https://logo.clearbit.com/acme.com" then some 200 else none)
    "acme.com" "https://acme.com" []).1 (by decide)


theorem takeWhile_eq_self_of {p : Char → Bool} {l : List Char}
    (h : ∀ c ∈ l, p c = true) : l.takeWhile p = l := by
  induction l with
  | nil => rfl
  | cons c rest ih =>
    rw [List.takeWhile_cons, h c (by simp)]
    simp only [ite_true]
    rw [ih (fun d hd => h d (List.mem_cons_of_mem c hd))]

theorem hexCharVal_lt16 {c : Char} (h : isHexDigitChar c = true) : hexCharVal c < 16 := by
  unfold isHexDigitChar at h
  simp only [Bool.or_eq_true, Bool.and_eq_true, decide_eq_true_eq] at h
  unfold hexCharVal
  by_cases hd : c.isDigit
  · rw [if_pos hd]
    have hb : 48 ≤ c.toNat ∧ c.toNat ≤ 57 := by
      simpa [Char.isDigit, Bool.and_eq_true, decide_eq_true_eq] using hd
    omega
  · rw [if_neg hd]
    by_cases hl : ('a' ≤ c && c ≤ 'f') = true
    · rw [if_pos hl]
      simp only [Bool.and_eq_true, decide_eq_true_eq] at hl
      have h1 : 97 ≤ c.toNat := by rw [Char.le_def] at hl; exact hl.1
      have h2 : c.toNat ≤ 102 := by rw [Char.le_def] at hl; exact hl.2
      omega
    · rw [if_neg hl]
      rcases h with (h | h) | h
      · exact absurd h (by simpa using hd)
      · exfalso
        apply hl
        simp only [Bool.and_eq_true, decide_eq_true_eq]
        exact h
      · have h1 : 65 ≤ c.toNat := by rw [Char.le_def] at h; exact h.1
        have h2 : c.toNat ≤ 70 := by rw [Char.le_def] at h; exact h.2
        omega

theorem hexFoldFrom (l : List Char) :
    ∀ a : Nat, l.foldl (fun a c => a * 16 + hexCharVal c) a =
      a * 16 ^ l.length + hexDigitsToNat l := by
  induction l with
  | nil => intro a; simp [hexDigitsToNat]
  | cons c rest ih =>
    intro a
    have h1 := ih (a * 16 + hexCharVal c)
    have h2 := ih (hexCharVal c)
    have h3 : hexDigitsToNat (c :: rest) = hexCharVal c * 16 ^ rest.length +
        hexDigitsToNat rest := by
      unfold hexDigitsToNat
      rw [List.foldl_cons]
      simpa using ih (0 * 16 + hexCharVal c)
    rw [List.foldl_cons, h1, h3]
    simp [List.length_cons, pow_succ]
    ring

theorem hexDigitsToNat_cons (c : Char) (l : List Char) :
    hexDigitsToNat (c :: l) = hexCharVal c * 16 ^ l.length + hexDigitsToNat l := by
  unfold hexDigitsToNat
  rw [List.foldl_cons]
  simpa using hexFoldFrom l (0 * 16 + hexCharVal c)

theorem hexDigitsToNat_append (l1 l2 : List Char) :
    hexDigitsToNat (l1 ++ l2) =
      hexDigitsToNat l1 * 16 ^ l2.length + hexDigitsToNat l2 := by
  unfold hexDigitsToNat
  rw [List.foldl_append]
  exact hexFoldFrom l2 _

theorem hexDigitsToNat_lt {l : List Char} (h : ∀ c ∈ l, isHexDigitChar c = true) :
    hexDigitsToNat l < 16 ^ l.length := by
  induction l with
  | nil => simp [hexDigitsToNat]
  | cons c rest ih =>
    rw [hexDigitsToNat_cons]
    have hv : hexCharVal c < 16 := hexCharVal_lt16 (h c (by simp))
    have hr : hexDigitsToNat rest < 16 ^ rest.length :=
      ih (fun d hd => h d (List.mem_cons_of_mem c hd))
    have : hexCharVal c * 16 ^ rest.length + hexDigitsToNat rest <
        (hexCharVal c + 1) * 16 ^ rest.length := by nlinarith
    calc hexCharVal c * 16 ^ rest.length + hexDigitsToNat rest
        < (hexCharVal c + 1) * 16 ^ rest.length := this
      _ ≤ 16 * 16 ^ rest.length := by
          have : hexCharVal c + 1 ≤ 16 := by omega
          exact Nat.mul_le_mul_right _ this
      _ = 16 ^ (rest.length + 1) := by ring
      _ = 16 ^ (c :: rest).length := by simp

theorem ne_of_isHexDigit {c d : Char} (h : isHexDigitChar c = true)
    (hd : isHexDigitChar d = false) : c ≠ d := by
  intro he
  rw [he] at h
  rw [h] at hd
  cases hd

theorem parseIntHexL_hexList {l : List Char} (hne : l ≠ [])
    (h : ∀ c ∈ l, isHexDigitChar c = true) :
    parseIntHexL l = some (hexDigitsToNat l) := by
  have hdw : l.dropWhile jsWS = l :=
    dropWhile_eq_self_of (fun c hc => not_ws_of_hexDigit (h c hc))
  have hrun : parseHexRun l = some (hexDigitsToNat l) := by
    have htw : l.takeWhile isHexDigitChar = l := takeWhile_eq_self_of h
    have hdr : parseHexDigitsRun l = some (hexDigitsToNat l) := by
      rw [parseHexDigitsRun, htw, if_neg hne]
    rw [parseHexRun.eq_def]
    split
    · next rest heq =>
      exfalso
      have hx : isHexDigitChar 'x' = true := h 'x' (by simp)
      exact absurd hx (by decide)
    · next rest heq =>
      exfalso
      have hx : isHexDigitChar 'X' = true := h 'X' (by simp)
      exact absurd hx (by decide)
    · exact hdr
  rw [parseIntHexL.eq_def, hdw]
  split
  · next rest heq =>
    exfalso
    have hx : isHexDigitChar '-' = true := h '-' (by simp)
    exact absurd hx (by decide)
  · next rest heq =>
    exfalso
    have hx : isHexDigitChar '+' = true := h '+' (by simp)
    exact absurd hx (by decide)
  · rw [hrun]
    rfl

/-- C8 counterexample: the background `#00000z` is not canonical hex — the
claim requires `light` for it — yet `detectTheme` parses the lenient hex prefix
`00000`, computes luminance 0 and returns `dark`. -/
theorem claim_C8_counterexample :
    detectTheme ⟨"#0066FF", "#003D99", "#66B3FF", "#00000z"⟩ = Theme.dark := by
  rw [detectTheme, detectThemeL, if_neg (by decide), if_neg (by decide),
    if_neg (by decide),
    show parseIntHexL (("#00000z" : String).data.drop 1) = some ((0 : Nat) : Int)
      from by decide]
  show detectThemeVal ((0 : Nat) : Int) = Theme.dark
  rw [detectThemeVal_natCast 0 (by norm_num), if_neg (by norm_num)]

/-- C8 (amended): `detectTheme` returns `light` when the background is empty,
not hash-prefixed, shorter than 7 characters, or when `parseInt` of its tail is
NaN; when the tail parses — leniently, so a malformed background whose tail
begins with hex digits is parsed by prefix and can classify as `dark` — the
result is `light` iff the luminance `0.299R + 0.587G + 0.114B` of the parsed
32-bit value exceeds 128.  For canonical `#` + six-hex-digit backgrounds this
is exactly the claimed channel formula. -/
theorem claim_C8_theme_classifier :
    (∀ colors : BrandColors,
      colors.background.data = [] ∨ startsHash colors.background.data = false ∨
        colors.background.data.length < 7 →
      detectTheme colors = Theme.light) ∧
    (∀ colors : BrandColors,
      parseIntHexL (colors.background.data.drop 1) = none →
      detectTheme colors = Theme.light) ∧
    (∀ ds : List Char, ds.length = 6 → (∀ c ∈ ds, isHexDigitChar c = true) →
      ∀ p sec a : String,
        detectTheme ⟨p, sec, a, ⟨'#' :: ds⟩⟩ =
          (if 128000 < 299 * hexDigitsToNat (ds.take 2) +
              587 * hexDigitsToNat ((ds.drop 2).take 2) +
              114 * hexDigitsToNat (ds.drop 4)
           then Theme.light else Theme.dark)) := by
  refine ⟨?_, ?_, ?_⟩
  · intro colors h
    rw [detectTheme, detectThemeL]
    by_cases h0 : colors.background.data = []
    · rw [if_pos h0]
    · rw [if_neg h0]
      by_cases h1 : startsHash colors.background.data = false
      · rw [if_pos h1]
      · rw [if_neg h1]
        have h2 : colors.background.data.length < 7 := by
          rcases h with h | h | h
          · exact absurd h h0
          · exact absurd h h1
          · exact h
        rw [if_pos h2]
  · intro colors hp
    rw [detectTheme, detectThemeL]
    by_cases h0 : colors.background.data = []
    · rw [if_pos h0]
    · rw [if_neg h0]
      by_cases h1 : startsHash colors.background.data = false
      · rw [if_pos h1]
      · rw [if_neg h1]
        by_cases h2 : colors.background.data.length < 7
        · rw [if_pos h2]
        · rw [if_neg h2, hp]
  · intro ds h6 hhex p sec a
    have hRsub : ∀ c ∈ ds.take 2, isHexDigitChar c = true :=
      fun c hc => hhex c (List.take_subset 2 ds hc)
    have hGsub : ∀ c ∈ (ds.drop 2).take 2, isHexDigitChar c = true :=
      fun c hc => hhex c (List.drop_subset 2 ds (List.take_subset 2 (ds.drop 2) hc))
    have hBsub : ∀ c ∈ ds.drop 4, isHexDigitChar c = true :=
      fun c hc => hhex c (List.drop_subset 4 ds hc)
    have hRlen : (ds.take 2).length = 2 := by simp [h6]
    have hGlen : ((ds.drop 2).take 2).length = 2 := by simp [h6]
    have hBlen : (ds.drop 4).length = 2 := by simp [h6]
    set R := hexDigitsToNat (ds.take 2) with hRdef
    set G := hexDigitsToNat ((ds.drop 2).take 2) with hGdef
    set B := hexDigitsToNat (ds.drop 4) with hBdef
    have hRlt : R < 256 := by
      have hx := hexDigitsToNat_lt hRsub
      rw [hRlen] at hx
      exact hx
    have hGlt : G < 256 := by
      have hx := hexDigitsToNat_lt hGsub
      rw [hGlen] at hx
      exact hx
    have hBlt : B < 256 := by
      have hx := hexDigitsToNat_lt hBsub
      rw [hBlen] at hx
      exact hx
    have hsplit : hexDigitsToNat ds = R * 65536 + G * 256 + B := by
      have e3 : (ds.drop 2).drop 2 = ds.drop 4 := by
        rw [List.drop_drop]
      have e2 : ds.drop 2 = (ds.drop 2).take 2 ++ ds.drop 4 := by
        rw [← e3, List.take_append_drop]
      have e1 : ds = ds.take 2 ++ ((ds.drop 2).take 2 ++ ds.drop 4) := by
        rw [← e2, List.take_append_drop]
      calc hexDigitsToNat ds
          = hexDigitsToNat (ds.take 2 ++ ((ds.drop 2).take 2 ++ ds.drop 4)) := by
            rw [← e1]
        _ = R * 16 ^ ((ds.drop 2).take 2 ++ ds.drop 4).length +
              (G * 16 ^ (ds.drop 4).length + B) := by
            rw [hexDigitsToNat_append, hexDigitsToNat_append]
        _ = R * 65536 + G * 256 + B := by
            rw [List.length_append, hGlen, hBlen]
            norm_num
            ring
    have hne2 : ds ≠ [] := by
      intro hcon
      rw [hcon] at h6
      cases h6
    have hparse : parseIntHexL (('#' :: ds).drop 1) =
        some ((hexDigitsToNat ds : Nat) : Int) := by
      show parseIntHexL ds = some (hexDigitsToNat ds)
      exact parseIntHexL_hexList hne2 hhex
    rw [detectTheme]
    show detectThemeL ('#' :: ds) = _
    rw [detectThemeL, if_neg (by simp),
      if_neg (fun hcon => Bool.noConfusion hcon),
      if_neg (by simp [h6]), hparse]
    show detectThemeVal ((hexDigitsToNat ds : Nat) : Int) = _
    rw [detectThemeVal_natCast _ (by omega)]
    have hr : hexDigitsToNat ds / 65536 % 256 = R := by omega
    have hg : hexDigitsToNat ds / 256 % 256 = G := by omega
    have hb : hexDigitsToNat ds % 256 = B := by omega
    rw [hr, hg, hb]

/-- Witness for C8: the canonical-hex branch applied to a white background. -/
theorem claim_C8_witness :
    detectTheme ⟨"x", "y", "z", ⟨'#' :: ("FFFFFF" : String).data⟩⟩ =
      (if 128000 < 299 * hexDigitsToNat (("FFFFFF" : String).data.take 2) +
          587 * hexDigitsToNat ((("FFFFFF" : String).data.drop 2).take 2) +
          114 * hexDigitsToNat (("FFFFFF" : String).data.drop 4)
       then Theme.light else Theme.dark) :=
  claim_C8_theme_classifier.2.2 ("FFFFFF" : String).data (by decide) (by decide)
    "x" "y" "z"


theorem intToHexChars_nonneg {i : Int} (h : 0 ≤ i) :
    intToHexChars i = toHexDigits i.toNat := by
  rw [intToHexChars, if_neg (by omega)]

theorem channelScaleN_zero (n : Nat) : channelScaleN n 0 = 0 := by
  unfold channelScaleN
  rw [mul_zero, jsRoundQ_eq_floor]
  norm_num

theorem channelScaleN_one (n : Nat) : channelScaleN n 1 = n := by
  unfold channelScaleN
  rw [mul_one]
  rw [show jsRoundQ ((n : ℚ)) = (n : Int) from
    jsRoundQ_eq_of (by push_cast; linarith) (by push_cast; linarith)]
  exact Int.toNat_natCast n

theorem hexPairVal {a b : Nat} (ha : a < 16) (hb : b < 16) :
    hexDigitsToNat [hexDigitChar a, hexDigitChar b] = 16 * a + b := by
  rw [hexDigitsToNat_cons, hexDigitsToNat_cons]
  simp [hexDigitsToNat, hexCharVal_hexDigitChar ha, hexCharVal_hexDigitChar hb]
  ring

/-- C7 counterexample: `darken(color, 1)` is not the string identity — the
re-encoding lowercases, so `darken(#FF6600, 1) = #ff6600 ≠ #FF6600`. -/
theorem claim_C7_counterexample :
    darkenHex "#FF6600" 1 = "#ff6600" ∧ darkenHex "#FF6600" 1 ≠ "#FF6600" := by
  have h1 : darkenHex "#FF6600" 1 = "#ff6600" := by
    apply String.ext
    show darkenHexL "#FF6600".data 1 = "#ff6600".data
    rw [darkenHexL, if_neg (by decide),
      show parseIntHexL (("#FF6600".data.drop 1).take 2) = some 255 from by decide,
      show parseIntHexL ((("#FF6600".data.drop 1).drop 2).take 2) = some 102 from by decide,
      show parseIntHexL ((("#FF6600".data.drop 1).drop 4).take 2) = some 0 from by decide]
    show '#' :: pad2 (intToHexChars (jsRoundQ (((255 : Int) : ℚ) * 1)))
        ++ pad2 (intToHexChars (jsRoundQ (((102 : Int) : ℚ) * 1)))
        ++ pad2 (intToHexChars (jsRoundQ (((0 : Int) : ℚ) * 1))) = "#ff6600".data
    rw [show jsRoundQ (((255 : Int) : ℚ) * 1) = 255 from
        jsRoundQ_eq_of (by norm_num) (by norm_num),
      show jsRoundQ (((102 : Int) : ℚ) * 1) = 102 from
        jsRoundQ_eq_of (by norm_num) (by norm_num),
      show jsRoundQ (((0 : Int) : ℚ) * 1) = 0 from
        jsRoundQ_eq_of (by norm_num) (by norm_num)]
    decide
  refine ⟨h1, ?_⟩
  rw [h1]
  decide

/-- C7 (amended): on a well-formed `#` + six-hex-digit color and factor in
`[0, 1]`, `darken` multiplies each channel by the factor, rounds half-up to the
nearest integer, and re-encodes each channel as two lowercase hex digits;
factor 0 gives `#000000`; factor 1 is the identity on lowercase-canonical
inputs (uppercase inputs come back lowercased — see the counterexample); and
`darken(#FF6600, 0.5) = #803300`. -/
theorem claim_C7_darken_wellformed :
    (∀ ds : List Char, ds.length = 6 → (∀ c ∈ ds, isHexDigitChar c = true) →
      ∀ f : ℚ, 0 ≤ f → f ≤ 1 →
      darkenHex ⟨'#' :: ds⟩ f =
        ⟨'#' :: (rgbByte (channelScaleN (hexDigitsToNat (ds.take 2)) f) ++
          rgbByte (channelScaleN (hexDigitsToNat ((ds.drop 2).take 2)) f) ++
          rgbByte (channelScaleN (hexDigitsToNat (ds.drop 4)) f))⟩) ∧
    (∀ ds : List Char, ds.length = 6 → (∀ c ∈ ds, isHexDigitChar c = true) →
      darkenHex ⟨'#' :: ds⟩ 0 = "#000000") ∧
    (∀ a1 b1 a2 b2 a3 b3 : Nat,
      a1 < 16 → b1 < 16 → a2 < 16 → b2 < 16 → a3 < 16 → b3 < 16 →
      darkenHex ⟨['#', hexDigitChar a1, hexDigitChar b1, hexDigitChar a2,
          hexDigitChar b2, hexDigitChar a3, hexDigitChar b3]⟩ 1 =
        ⟨['#', hexDigitChar a1, hexDigitChar b1, hexDigitChar a2, hexDigitChar b2,
          hexDigitChar a3, hexDigitChar b3]⟩) ∧
    darkenHex "#FF6600" (1/2) = "#803300" := by
  have hmain : ∀ ds : List Char, ds.length = 6 →
      (∀ c ∈ ds, isHexDigitChar c = true) → ∀ f : ℚ, 0 ≤ f →
      darkenHex ⟨'#' :: ds⟩ f =
        ⟨'#' :: (rgbByte (channelScaleN (hexDigitsToNat (ds.take 2)) f) ++
          rgbByte (channelScaleN (hexDigitsToNat ((ds.drop 2).take 2)) f) ++
          rgbByte (channelScaleN (hexDigitsToNat (ds.drop 4)) f))⟩ := by
    intro ds h6 hhex f h0
    have hpiece : ∀ n : Nat, pad2 (intToHexChars (jsRoundQ (((n : Int) : ℚ) * f))) =
        rgbByte (channelScaleN n f) := by
      intro n
      have hcast : (((n : Int) : ℚ)) = (n : ℚ) := by push_cast; rfl
      have hnn : 0 ≤ jsRoundQ ((n : ℚ) * f) := by
        rw [jsRoundQ_eq_floor]
        rw [Int.le_floor]
        have : (0 : ℚ) ≤ (n : ℚ) * f := mul_nonneg (by positivity) h0
        push_cast
        linarith
      rw [hcast, intToHexChars_nonneg hnn, rgbByte, channelScaleN]
    apply String.ext
    show darkenHexL ('#' :: ds) f = _
    have hguard : ¬ (startsHash ('#' :: ds) = false ∨ ('#' :: ds).length < 7) := by
      rintro (h | h)
      · exact Bool.noConfusion h
      · simp [h6] at h
    have htake : ∀ c ∈ ds.take 2, isHexDigitChar c = true :=
      fun c hc => hhex c (List.take_subset 2 ds hc)
    have hmid : ∀ c ∈ (ds.drop 2).take 2, isHexDigitChar c = true :=
      fun c hc => hhex c (List.drop_subset 2 ds (List.take_subset 2 (ds.drop 2) hc))
    have hlast : ∀ c ∈ ds.drop 4, isHexDigitChar c = true :=
      fun c hc => hhex c (List.drop_subset 4 ds hc)
    have hp1 : parseIntHexL ((('#' :: ds).drop 1).take 2) =
        some ((hexDigitsToNat (ds.take 2) : Nat) : Int) := by
      show parseIntHexL (ds.take 2) = _
      exact parseIntHexL_hexList (List.length_pos.mp (by simp [h6])) htake
    have hp2 : parseIntHexL (((('#' :: ds).drop 1).drop 2).take 2) =
        some ((hexDigitsToNat ((ds.drop 2).take 2) : Nat) : Int) := by
      show parseIntHexL ((ds.drop 2).take 2) = _
      exact parseIntHexL_hexList (List.length_pos.mp (by simp [h6])) hmid
    have hp3 : parseIntHexL (((('#' :: ds).drop 1).drop 4).take 2) =
        some ((hexDigitsToNat (ds.drop 4) : Nat) : Int) := by
      show parseIntHexL ((ds.drop 4).take 2) = _
      have he : (ds.drop 4).take 2 = ds.drop 4 :=
        List.take_of_length_le (by simp [h6])
      rw [he]
      exact parseIntHexL_hexList (List.length_pos.mp (by simp [h6])) hlast
    rw [darkenHexL, if_neg hguard, hp1, hp2, hp3]
    show '#' :: pad2 (intToHexChars (jsRoundQ
          (((hexDigitsToNat (ds.take 2) : Int) : ℚ) * f)))
        ++ pad2 (intToHexChars (jsRoundQ
          (((hexDigitsToNat ((ds.drop 2).take 2) : Int) : ℚ) * f)))
        ++ pad2 (intToHexChars (jsRoundQ
          (((hexDigitsToNat (ds.drop 4) : Int) : ℚ) * f))) = _
    rw [hpiece, hpiece, hpiece]
    rfl
  refine ⟨fun ds h6 hhex f h0 _h1 => hmain ds h6 hhex f h0, ?_, ?_, ?_⟩
  · intro ds h6 hhex
    rw [hmain ds h6 hhex 0 le_rfl]
    apply String.ext
    show '#' :: (rgbByte (channelScaleN (hexDigitsToNat (ds.take 2)) 0) ++
        rgbByte (channelScaleN (hexDigitsToNat ((ds.drop 2).take 2)) 0) ++
        rgbByte (channelScaleN (hexDigitsToNat (ds.drop 4)) 0)) = "#000000".data
    rw [channelScaleN_zero, channelScaleN_zero, channelScaleN_zero]
    decide
  · intro a1 b1 a2 b2 a3 b3 ha1 hb1 ha2 hb2 ha3 hb3
    have hhex : ∀ c ∈ [hexDigitChar a1, hexDigitChar b1, hexDigitChar a2,
        hexDigitChar b2, hexDigitChar a3, hexDigitChar b3], isHexDigitChar c = true := by
      intro c hc
      simp only [List.mem_cons, List.not_mem_nil, or_false] at hc
      rcases hc with h | h | h | h | h | h <;> subst h <;>
        first
          | exact hexDigitChar_isHex ha1
          | exact hexDigitChar_isHex hb1
          | exact hexDigitChar_isHex ha2
          | exact hexDigitChar_isHex hb2
          | exact hexDigitChar_isHex ha3
          | exact hexDigitChar_isHex hb3
    have happ := hmain [hexDigitChar a1, hexDigitChar b1, hexDigitChar a2,
      hexDigitChar b2, hexDigitChar a3, hexDigitChar b3] rfl hhex 1 (by norm_num)
    rw [happ]
    apply String.ext
    show '#' :: (rgbByte (channelScaleN (hexDigitsToNat
          [hexDigitChar a1, hexDigitChar b1]) 1) ++
        rgbByte (channelScaleN (hexDigitsToNat [hexDigitChar a2, hexDigitChar b2]) 1) ++
        rgbByte (channelScaleN (hexDigitsToNat [hexDigitChar a3, hexDigitChar b3]) 1)) = _
    rw [hexPairVal ha1 hb1, hexPairVal ha2 hb2, hexPairVal ha3 hb3,
      channelScaleN_one, channelScaleN_one, channelScaleN_one,
      rgbByte, byteHexPair ha1 hb1, rgbByte, byteHexPair ha2 hb2,
      rgbByte, byteHexPair ha3 hb3]
    rfl
  · have heqs : ("#FF6600" : String) = ⟨'#' :: ("FF6600" : String).data⟩ := by decide
    rw [heqs, hmain ("FF6600" : String).data (by decide) (by decide) (1/2) (by norm_num)]
    apply String.ext
    show '#' :: (rgbByte (channelScaleN (hexDigitsToNat
          (("FF6600" : String).data.take 2)) (1/2)) ++
        rgbByte (channelScaleN (hexDigitsToNat
          ((("FF6600" : String).data.drop 2).take 2)) (1/2)) ++
        rgbByte (channelScaleN (hexDigitsToNat
          (("FF6600" : String).data.drop 4)) (1/2))) = "#803300".data
    rw [show hexDigitsToNat (("FF6600" : String).data.take 2) = 255 from by decide,
      show hexDigitsToNat ((("FF6600" : String).data.drop 2).take 2) = 102 from by decide,
      show hexDigitsToNat (("FF6600" : String).data.drop 4) = 0 from by decide,
      show channelScaleN 255 (1/2) = 128 from by
        unfold channelScaleN
        rw [show jsRoundQ (((255 : Nat) : ℚ) * (1/2)) = 128 from
          jsRoundQ_eq_of (by norm_num) (by norm_num)]
        rfl,
      show channelScaleN 102 (1/2) = 51 from by
        unfold channelScaleN
        rw [show jsRoundQ (((102 : Nat) : ℚ) * (1/2)) = 51 from
          jsRoundQ_eq_of (by norm_num) (by norm_num)]
        rfl,
      show channelScaleN 0 (1/2) = 0 from by
        unfold channelScaleN
        rw [show jsRoundQ (((0 : Nat) : ℚ) * (1/2)) = 0 from
          jsRoundQ_eq_of (by norm_num) (by norm_num)]
        rfl]
    decide

/-- Witness for C7: the channel-semantics equation applied at lowercase
`#ff6600` with factor 1. -/
theorem claim_C7_witness :
    darkenHex ⟨'#' :: ("ff6600" : String).data⟩ 1 =
      ⟨'#' :: (rgbByte (channelScaleN (hexDigitsToNat
          (("ff6600" : String).data.take 2)) 1) ++
        rgbByte (channelScaleN (hexDigitsToNat
          ((("ff6600" : String).data.drop 2).take 2)) 1) ++
        rgbByte (channelScaleN (hexDigitsToNat
          (("ff6600" : String).data.drop 4)) 1))⟩ :=
  claim_C7_darken_wellformed.1 ("ff6600" : String).data (by decide) (by decide) 1
    (by norm_num) (by norm_num)


theorem startsHash_cons {t : List Char} (h : startsHash t = true) :
    t = '#' :: t.drop 1 := by
  cases t with
  | nil => cases h
  | cons c rest =>
    have hc : c = '#' := by simpa [startsHash] using h
    rw [hc]
    rfl

theorem parseFloatJs_nonneg {cs : List Char} {q : ℚ} (h : parseFloatJs cs = some q) :
    0 ≤ q := by
  unfold parseFloatJs at h
  split at h
  · split at h
    · cases h
    · rw [Option.some.injEq] at h
      subst h
      positivity
  · cases h
  · rw [Option.some.injEq] at h
    subst h
    positivity
  · rw [Option.some.injEq] at h
    subst h
    positivity

theorem hue2rgbAdjust_some {t : ℚ} (ht : -1 ≤ t) :
    ∃ t2 : ℚ, hue2rgbAdjust (some t) = some t2 ∧ 0 ≤ t2 := by
  unfold hue2rgbAdjust
  by_cases h1 : t < 0
  · rw [show (if nlt (some t) (some 0) = true then nadd (some t) (some 1)
        else some t) = some (t + 1) from by simp [nlt, nadd, h1]]
    rw [show (if nlt (some 1) (some (t + 1)) = true
        then nsub (some (t + 1)) (some 1) else some (t + 1)) = some (t + 1) from by
      have h2 : ¬ (1:ℚ) < t + 1 := by linarith
      simp [nlt, h2]]
    exact ⟨t + 1, rfl, by linarith⟩
  · rw [show (if nlt (some t) (some 0) = true then nadd (some t) (some 1)
        else some t) = some t from by simp [nlt, h1]]
    by_cases h2 : (1:ℚ) < t
    · rw [show (if nlt (some 1) (some t) = true
          then nsub (some t) (some 1) else some t) = some (t - 1) from by
        simp [nlt, nsub, h2]]
      exact ⟨t - 1, rfl, by linarith⟩
    · rw [show (if nlt (some 1) (some t) = true
          then nsub (some t) (some 1) else some t) = some t from by
        simp [nlt, h2]]
      exact ⟨t, rfl, by linarith⟩

theorem hue2rgbBody_some_bounds {p q t2 : ℚ} (hp : 0 ≤ p) (hpq : p ≤ q)
    (hq : q ≤ 1) (ht2 : 0 ≤ t2) :
    ∃ x : ℚ, hue2rgbBody (some p) (some q) (some t2) = some x ∧ 0 ≤ x ∧ x ≤ 1 := by
  unfold hue2rgbBody
  simp only [nlt, nadd, nsub, nmul, decide_eq_true_eq]
  by_cases h1 : t2 < 1/6
  · rw [if_pos h1]
    refine ⟨_, rfl, ?_, ?_⟩
    · nlinarith
    · nlinarith [mul_nonneg (sub_nonneg.mpr hpq)
        (by linarith : (0:ℚ) ≤ 1 - 6 * t2)]
  · rw [if_neg h1]
    by_cases h2 : t2 < 1/2
    · rw [if_pos h2]
      exact ⟨q, rfl, le_trans hp hpq, hq⟩
    · rw [if_neg h2]
      by_cases h3 : t2 < 2/3
      · rw [if_pos h3]
        refine ⟨_, rfl, ?_, ?_⟩
        · nlinarith [mul_nonneg (sub_nonneg.mpr hpq)
            (by linarith : (0:ℚ) ≤ 2/3 - t2)]
        · nlinarith [mul_nonneg (sub_nonneg.mpr hpq)
            (by linarith : (0:ℚ) ≤ 1 - (2/3 - t2) * 6)]
      · rw [if_neg h3]
        exact ⟨p, rfl, hp, le_trans hpq hq⟩

theorem hue2rgb_some_bounds {p q t : ℚ} (hp : 0 ≤ p) (hpq : p ≤ q) (hq : q ≤ 1)
    (ht : -1 ≤ t) :
    ∃ x : ℚ, hue2rgb (some p) (some q) (some t) = some x ∧ 0 ≤ x ∧ x ≤ 1 := by
  obtain ⟨t2, he, ht2⟩ := hue2rgbAdjust_some ht
  unfold hue2rgb
  rw [he]
  exact hue2rgbBody_some_bounds hp hpq hq ht2

theorem hslByte_canon {x : ℚ} (h0 : 0 ≤ x) (h1 : x ≤ 1) :
    (hslByte (some x)).length = 2 ∧
      ∀ c ∈ hslByte (some x), isHexDigitChar c = true := by
  have hr0 : 0 ≤ jsRoundQ (x * 255) := by
    rw [jsRoundQ_eq_floor, Int.le_floor]
    push_cast
    nlinarith
  have hr256 : (jsRoundQ (x * 255)).toNat < 256 := by
    have hlt : jsRoundQ (x * 255) < 256 := by
      rw [jsRoundQ_eq_floor]
      have : ⌊x * 255 + 1/2⌋ < (256 : Int) := by
        rw [Int.floor_lt]
        push_cast
        nlinarith
      exact this
    omega
  have hshape : hslByte (some x) = rgbByte (jsRoundQ (x * 255)).toNat := by
    show pad2 (numToHexChars (nround (nmul (some x) (some 255)))) = _
    rw [show nround (nmul (some x) (some 255)) = some (jsRoundQ (x * 255)) from rfl]
    rw [show numToHexChars (some (jsRoundQ (x * 255))) =
      intToHexChars (jsRoundQ (x * 255)) from rfl]
    rw [intToHexChars_nonneg hr0]
    rfl
  rw [hshape]
  exact ⟨rgbByte_len hr256, rgbByte_hex hr256⟩


theorem hslPQ_bounds {s l : ℚ} (hs0 : 0 ≤ s) (hs1 : s ≤ 1) (hl0 : 0 ≤ l)
    (hl1 : l ≤ 1) :
    ∃ p0 q0 : ℚ, hslP (some s) (some l) = some p0 ∧
      hslQ (some s) (some l) = some q0 ∧ 0 ≤ p0 ∧ p0 ≤ q0 ∧ q0 ≤ 1 := by
  by_cases hl : l < 1/2
  · have hq : hslQ (some s) (some l) = some (l * (1 + s)) := by
      have hb : nlt (some l) (some (1/2)) = true := by
        simp only [nlt, decide_eq_true_eq]
        exact hl
      unfold hslQ
      rw [hb]
      simp [nmul, nadd]
    have hp : hslP (some s) (some l) = some (2 * l - l * (1 + s)) := by
      unfold hslP
      rw [hq]
      simp [nmul, nsub]
    refine ⟨_, _, hp, hq, ?_, ?_, ?_⟩
    · nlinarith [mul_nonneg hl0 (by linarith : (0:ℚ) ≤ 1 - s)]
    · nlinarith [mul_nonneg hl0 hs0]
    · nlinarith
  · have hq : hslQ (some s) (some l) = some (l + s - l * s) := by
      have hb : nlt (some l) (some (1/2)) = false := by
        simp only [nlt, decide_eq_false_iff_not]
        exact hl
      unfold hslQ
      rw [hb]
      simp [nadd, nmul, nsub]
    have hp : hslP (some s) (some l) = some (2 * l - (l + s - l * s)) := by
      unfold hslP
      rw [hq]
      simp [nmul, nsub]
    refine ⟨_, _, hp, hq, ?_, ?_, ?_⟩
    · nlinarith [mul_nonneg hs0 (by linarith : (0:ℚ) ≤ 1 - l)]
    · nlinarith [mul_nonneg hs0 (by linarith : (0:ℚ) ≤ 1 - l)]
    · nlinarith [mul_nonneg (by linarith : (0:ℚ) ≤ 1 - s) (by linarith : (0:ℚ) ≤ 1 - l)]

theorem hslToHexL_canon {h s l : ℚ} (hh : 0 ≤ h) (hs0 : 0 ≤ s) (hs1 : s ≤ 1)
    (hl0 : 0 ≤ l) (hl1 : l ≤ 1) :
    ∃ ds : List Char, hslToHexL (some h) (some s) (some l) = '#' :: ds ∧
      ds.length = 6 ∧ ∀ c ∈ ds, isHexDigitChar c = true := by
  unfold hslToHexL
  by_cases hs : (some s : Option ℚ) = some 0
  · rw [if_pos hs]
    obtain ⟨hlen, hhexb⟩ := hslByte_canon hl0 hl1
    refine ⟨hslByte (some l) ++ hslByte (some l) ++ hslByte (some l), rfl,
      by simp [hlen], ?_⟩
    intro c hc
    rcases List.mem_append.mp hc with hc1 | hc1
    · rcases List.mem_append.mp hc1 with hc2 | hc2 <;> exact hhexb c hc2
    · exact hhexb c hc1
  · rw [if_neg hs]
    obtain ⟨p0, q0, hp, hq, hpb, hpq, hqb⟩ := hslPQ_bounds hs0 hs1 hl0 hl1
    rw [hp, hq, show nadd (some h) (some (1/3)) = some (h + 1/3) from rfl,
      show nsub (some h) (some (1/3)) = some (h - 1/3) from rfl]
    obtain ⟨r0, hre, hr0, hr1⟩ :=
      hue2rgb_some_bounds hpb hpq hqb (show (-1:ℚ) ≤ h + 1/3 by linarith)
    obtain ⟨g0, hge, hg0, hg1⟩ :=
      hue2rgb_some_bounds hpb hpq hqb (show (-1:ℚ) ≤ h by linarith)
    obtain ⟨b0, hbe, hb0, hb1⟩ :=
      hue2rgb_some_bounds hpb hpq hqb (show (-1:ℚ) ≤ h - 1/3 by linarith)
    rw [hre, hge, hbe]
    obtain ⟨hrl, hrh⟩ := hslByte_canon hr0 hr1
    obtain ⟨hgl, hgh⟩ := hslByte_canon hg0 hg1
    obtain ⟨hbl, hbh⟩ := hslByte_canon hb0 hb1
    refine ⟨_, rfl, ?_, ?_⟩
    · simp [hrl, hgl, hbl]
    · intro c hc
      rcases List.mem_append.mp hc with hc1 | hc1
      · rcases List.mem_append.mp hc1 with hc2 | hc2
        · exact hrh c hc2
        · exact hgh c hc2
      · exact hbh c hc1

theorem namedColors_check :
    namedColors.all (fun pr => startsHash pr.2.data &&
      ((pr.2.data.drop 1).length == 6) && (pr.2.data.drop 1).all isHexDigitChar) =
      true := by
  decide

theorem lookupNamed_canon {t : List Char} {v : String} (h : lookupNamed t = some v) :
    ∃ ds : List Char, v.data = '#' :: ds ∧ ds.length = 6 ∧
      ∀ c ∈ ds, isHexDigitChar c = true := by
  unfold lookupNamed at h
  cases hf : namedColors.find? (fun p => p.1.data == t.map Char.toLower) with
  | none =>
    rw [hf] at h
    cases h
  | some pr =>
    rw [hf] at h
    rw [Option.map_some'] at h
    rw [Option.some.injEq] at h
    have hmem : pr ∈ namedColors := List.mem_of_find?_eq_some hf
    have hall := List.all_eq_true.mp namedColors_check pr hmem
    simp only [Bool.and_eq_true, beq_iff_eq] at hall
    obtain ⟨⟨hsh2, hlen2⟩, hhex2⟩ := hall
    subst h
    refine ⟨pr.2.data.drop 1, startsHash_cons hsh2, hlen2, ?_⟩
    intro c hc
    exact List.all_eq_true.mp hhex2 c hc


/-- C6 (confirmed): on every valid color input — canonical hex (`#RGB`,
`#RRGGBB`, `#RRGGBBAA`), `rgb()`/`rgba()` with components at most 255,
`hsl()`/`hsla()` with percentages at most 100, or a table named color —
`normalize` returns a 7-character hash-prefixed hex string, and is idempotent
on all of them; in particular `#abc ↦ #aabbcc` and `#FF6600AA ↦ #FF6600`. -/
theorem claim_C6_normalize_canonical :
    (∀ x : String, isValidColorInput x = true →
      (∃ ds : List Char, (rgbaToHex x).data = '#' :: ds ∧ ds.length = 6 ∧
        ∀ c ∈ ds, isHexDigitChar c = true) ∧
      rgbaToHex (rgbaToHex x) = rgbaToHex x) ∧
    rgbaToHex "#abc" = "#aabbcc" ∧ rgbaToHex "#FF6600AA" = "#FF6600" := by
  refine ⟨?_, by decide, by decide⟩
  intro x hvalid
  suffices hsuff : ∃ ds : List Char, (rgbaToHex x).data = '#' :: ds ∧
      ds.length = 6 ∧ ∀ c ∈ ds, isHexDigitChar c = true by
    obtain ⟨ds, heq, hlen, hhex⟩ := hsuff
    refine ⟨⟨ds, heq, hlen, hhex⟩, ?_⟩
    apply String.ext
    show rgbaToHexL (rgbaToHex x).data = (rgbaToHex x).data
    rw [heq]
    exact rgbaToHexL_canon hlen hhex
  unfold isValidColorInput at hvalid
  have hxne : x.data ≠ [] := by
    intro h0
    rw [h0] at hvalid
    exact absurd hvalid (by decide)
  have hred : (rgbaToHex x).data = rgbaToHexTrimmed (jsTrimWS x.data) := by
    show rgbaToHexL x.data = _
    rw [rgbaToHexL, if_neg hxne]
  rw [hred]
  by_cases hsh : startsHash (jsTrimWS x.data) = true
  · rw [if_pos hsh] at hvalid
    rw [rgbaToHexTrimmed, if_pos hsh]
    simp only [Bool.and_eq_true, Bool.or_eq_true, beq_iff_eq] at hvalid
    obtain ⟨hall, hlens⟩ := hvalid
    have hT := startsHash_cons hsh
    have hhex0 : ∀ c ∈ (jsTrimWS x.data).drop 1, isHexDigitChar c = true :=
      fun c hc => List.all_eq_true.mp hall c hc
    generalize hG : (jsTrimWS x.data).drop 1 = ds0 at hT hhex0 hlens
    rw [hT]
    rcases hlens with (h3 | h6) | h8
    · rcases ds0 with _ | ⟨r, _ | ⟨g, _ | ⟨b, _ | ⟨c4, rest⟩⟩⟩⟩
      · simp at h3
      · simp at h3
      · simp at h3
      · refine ⟨[r, r, g, g, b, b], rfl, rfl, ?_⟩
        intro c hc
        simp only [List.mem_cons, List.not_mem_nil, or_false] at hc
        rcases hc with h | h | h | h | h | h <;> subst h <;>
          exact hhex0 _ (by simp)
      · simp only [List.length_cons] at h3
        omega
    · rw [hexBranch_len_ne4 (by simp [h6]), List.take_of_length_le (by simp [h6])]
      exact ⟨ds0, rfl, h6, hhex0⟩
    · rw [hexBranch_len_ne4 (by simp [h8]), List.take_succ_cons]
      refine ⟨ds0.take 6, rfl, by simp [h8], ?_⟩
      intro c hc
      exact hhex0 c (List.take_subset 6 ds0 hc)
  · rw [if_neg hsh] at hvalid
    rw [rgbaToHexTrimmed, if_neg hsh]
    rcases hscan : scanRgb (jsTrimWS x.data) with _ | ⟨r, g, b⟩
    · rw [hscan] at hvalid
      rcases hscan2 : scanHsl (jsTrimWS x.data) with _ | ⟨c1, c2, c3⟩
      · rw [hscan2] at hvalid
        cases hfound : lookupNamed (jsTrimWS x.data) with
        | none =>
          rw [hfound] at hvalid
          exact Bool.noConfusion hvalid
        | some v =>
          exact lookupNamed_canon hfound
      · rw [hscan2] at hvalid
        have hvalid2 : (match parseFloatJs c1, parseFloatJs c2, parseFloatJs c3 with
            | some v1, some s1, some l1 => decide (s1 ≤ 100 ∧ l1 ≤ 100)
            | _, _, _ => false) = true := hvalid
        show ∃ ds : List Char, hslFromCaptures c1 c2 c3 = '#' :: ds ∧
          ds.length = 6 ∧ ∀ c ∈ ds, isHexDigitChar c = true
        rcases hp1 : parseFloatJs c1 with _ | h1v
        · rw [hp1] at hvalid2
          exact Bool.noConfusion hvalid2
        · rcases hp2 : parseFloatJs c2 with _ | s1v
          · rw [hp1, hp2] at hvalid2
            exact Bool.noConfusion hvalid2
          · rcases hp3 : parseFloatJs c3 with _ | l1v
            · rw [hp1, hp2, hp3] at hvalid2
              exact Bool.noConfusion hvalid2
            · rw [hp1, hp2, hp3] at hvalid2
              obtain ⟨hsb, hlb⟩ := of_decide_eq_true hvalid2
              unfold hslFromCaptures
              rw [hp1, hp2, hp3, Option.map_some', Option.map_some',
                Option.map_some']
              exact hslToHexL_canon
                (div_nonneg (parseFloatJs_nonneg hp1) (by norm_num))
                (div_nonneg (parseFloatJs_nonneg hp2) (by norm_num))
                ((div_le_one (by norm_num)).mpr hsb)
                (div_nonneg (parseFloatJs_nonneg hp3) (by norm_num))
                ((div_le_one (by norm_num)).mpr hlb)
    · rw [hscan] at hvalid
      obtain ⟨hrb, hgb, hbb⟩ := of_decide_eq_true hvalid
      refine ⟨rgbByte r ++ rgbByte g ++ rgbByte b, rfl, ?_, ?_⟩
      · rw [List.length_append, List.length_append, rgbByte_len (by omega),
          rgbByte_len (by omega), rgbByte_len (by omega)]
      · intro c hc
        rcases List.mem_append.mp hc with hc1 | hc1
        · rcases List.mem_append.mp hc1 with hc2 | hc2
          · exact rgbByte_hex (by omega) c hc2
          · exact rgbByte_hex (by omega) c hc2
        · exact rgbByte_hex (by omega) c hc1

/-- Witness for C6 at the concrete input `rgb(255, 102, 0)`. -/
theorem claim_C6_witness :
    (∃ ds : List Char, (rgbaToHex "rgb(255, 102, 0)").data = '#' :: ds ∧
      ds.length = 6 ∧ ∀ c ∈ ds, isHexDigitChar c = true) ∧
    rgbaToHex (rgbaToHex "rgb(255, 102, 0)") = rgbaToHex "rgb(255, 102, 0)" :=
  claim_C6_normalize_canonical.1 "rgb(255, 102, 0)" (by decide)


end D2T
